import Mathlib

/-! # internal/codegen/golang/query.go

A shallow embedding of the value wrapper `QueryValue` and of the text
fragments it produces.

Conventions of the embedding.

* A Go `string` is a Lean `String`; only well-formed UTF-8 text is covered.
  For such text `strings.HasPrefix` and `strings.HasSuffix` (which compare
  bytes) agree with the comparison of the character sequences.
* A Go pointer is an `Option`; dereferencing `nil` is a run-time panic.
* A function that can panic returns `Except String _`, the error carrying the
  panic message.
* `for _, x := range xs { out = append(out, ...) }` is a left fold that
  appends to the accumulator.
* `fmt.Sprintf` with only `%s` verbs is the concatenation of the pieces.
-/

namespace Golang

deriving instance DecidableEq for Except

/-! ## Go library functions -/

/-- Go `strings.Join(elems, sep)`. -/
def stringsJoin : List String → String → String
  | [], _ => ""
  | [a], _ => a
  | a :: b :: rest, sep => a ++ sep ++ stringsJoin (b :: rest) sep

/-- Go `strings.HasPrefix(s, pre)`. -/
def hasPrefix (s pre : String) : Bool :=
  pre.data.isPrefixOf s.data

/-- Go `strings.HasSuffix(s, suf)`. -/
def hasSuffix (s suf : String) : Bool :=
  suf.data.isSuffixOf s.data

/-- Go slice expression `s[lo:hi]` on a string, with byte offsets; it panics
when the bounds are not ordered or exceed the length. -/
def sliceString (s : String) (lo hi : Nat) : Except String String :=
  if lo ≤ hi ∧ hi ≤ s.utf8ByteSize then
    .ok (s.extract ⟨lo⟩ ⟨hi⟩)
  else
    .error "runtime error: slice bounds out of range"

/-- Panic message of a nil pointer dereference. -/
def nilDeref : String :=
  "runtime error: invalid memory address or nil pointer dereference"

/-! ## Data model -/

/-- The two members of `plugin.Column` that query.go reads. -/
structure Column where
  IsSqlcSlice : Bool
  OriginalName : String

/-- Type `Field` of the package; its member `Type` is `Type_` here. -/
structure Field where
  Name : String
  DBName : String
  Type_ : String
  Column : Option Column
  EmbedFields : List Field
  EmbedIsNullable : Bool
  EmbedPrimaryKeys : List Field

/-- Type `Struct` of the package, with the members query.go reads. -/
structure Struct where
  Name : String
  Fields : List Field

/-- Type `opts.SQLDriver` is a Go string type. -/
abbrev SQLDriver := String

/-- Functions of the package that query.go calls and that are defined in other
files: they are parameters of the embedding, taken as total functions, and
every theorem holds for any choice of them. -/
structure Pkg where
  /-- Function `escape(s string) string`. -/
  escape : String → String
  /-- Function `toLowerCase(s string) string`. -/
  toLowerCase : String → String
  /-- Method `Field.HasSqlcSlice()`. -/
  HasSqlcSlice : Field → Bool
  /-- Method `opts.SQLDriver.IsPGX()`. -/
  IsPGX : SQLDriver → Bool

structure QueryValue where
  Emit : Bool
  EmitPointer : Bool
  Name : String
  DBName : String
  Struct : Option Struct
  Typ : String
  SQLDriver : SQLDriver
  Column : Option Column

structure Argument where
  Name : String
  Type_ : String
deriving DecidableEq

/-! ## Predicates and type resolution -/

def QueryValue.EmitStruct (v : QueryValue) : Bool :=
  v.Emit

def QueryValue.IsStruct (v : QueryValue) : Bool :=
  v.Struct.isSome

def QueryValue.IsPointer (v : QueryValue) : Bool :=
  v.EmitPointer && v.Struct.isSome

def QueryValue.isEmpty (v : QueryValue) : Bool :=
  v.Typ == "" && v.Name == "" && v.Struct.isNone

/-- Method `QueryValue.Type`. -/
def QueryValue.Type_ (v : QueryValue) : Except String String :=
  if v.Typ != "" then
    .ok v.Typ
  else
    match v.Struct with
    | some s => .ok s.Name
    | none => .error ("no type for QueryValue: " ++ v.Name)

def QueryValue.DefineType (v : QueryValue) : Except String String :=
  match v.Type_ with
  | .error e => .error e
  | .ok t => if v.IsPointer then .ok ("*" ++ t) else .ok t

def QueryValue.ReturnName (p : Pkg) (v : QueryValue) : String :=
  if v.IsPointer then "&" ++ p.escape v.Name else p.escape v.Name

/-! ## Argument list -/

def QueryValue.Pairs (p : Pkg) (v : QueryValue) : Except String (List Argument) :=
  if v.isEmpty then
    .ok []
  else
    match v.EmitStruct, v.Struct with
    | false, some s =>
      .ok (s.Fields.foldl
        (fun out f => out ++ [⟨p.escape (p.toLowerCase f.Name), f.Type_⟩]) [])
    | _, _ =>
      match v.DefineType with
      | .error e => .error e
      | .ok t => .ok [⟨p.escape v.Name, t⟩]

def QueryValue.VariableForField (p : Pkg) (v : QueryValue) (f : Field) : String :=
  if !v.IsStruct then
    v.Name
  else if !v.EmitStruct then
    p.toLowerCase f.Name
  else
    v.Name ++ "." ++ f.Name

/-! ## Bound parameters -/

/-- The slice `out` of `QueryValue.Params` when the formatting starts
(query.go line 146). -/
def QueryValue.Params_out (p : Pkg) (v : QueryValue) : Except String (List String) :=
  match v.Struct with
  | none =>
    match v.Column with
    | none => .error nilDeref
    | some c =>
      if !c.IsSqlcSlice && hasPrefix v.Typ "[]" && v.Typ != "[]byte"
          && !p.IsPGX v.SQLDriver then
        .ok ["pq.Array(" ++ p.escape v.Name ++ ")"]
      else
        .ok [p.escape v.Name]
  | some s =>
    .ok (s.Fields.foldl
      (fun out f =>
        if !p.HasSqlcSlice f && hasPrefix f.Type_ "[]" && f.Type_ != "[]byte"
            && !p.IsPGX v.SQLDriver then
          out ++ ["pq.Array(" ++ p.escape (v.VariableForField p f) ++ ")"]
        else
          out ++ [p.escape (v.VariableForField p f)]) [])

def QueryValue.Params (p : Pkg) (v : QueryValue) : Except String String :=
  if v.isEmpty then
    .ok ""
  else
    match v.Params_out p with
    | .error e => .error e
    | .ok out =>
      if out.length ≤ 3 then
        .ok (stringsJoin out ",")
      else
        .ok ("\n" ++ stringsJoin (out ++ [""]) ",\n")

/-! ## Nullable embeds -/

def makeNullableType (typ : String) : String :=
  match typ with
  | "string" => "sql.NullString"
  | "int" | "int32" => "sql.NullInt32"
  | "int64" => "sql.NullInt64"
  | "float32" => "sql.NullFloat64"
  | "float64" => "sql.NullFloat64"
  | "bool" => "sql.NullBool"
  | "time.Time" => "sql.NullTime"
  | "[]byte" => "[]byte"
  | _ => if hasPrefix typ "sql.Null" then typ else typ

def extractNullableValue (varName originalType : String) : String :=
  match originalType with
  | "string" => varName ++ ".String"
  | "int" | "int32" => "int32(" ++ varName ++ ".Int32)"
  | "int64" => varName ++ ".Int64"
  | "float32" => "float32(" ++ varName ++ ".Float64)"
  | "float64" => varName ++ ".Float64"
  | "bool" => varName ++ ".Bool"
  | "time.Time" => varName ++ ".Time"
  | "[]byte" => varName
  | _ => if hasPrefix originalType "sql.Null" then varName else varName

def QueryValue.HasNullableEmbed (v : QueryValue) (emitEmbedNullableLeftJoin : Bool) : Bool :=
  if !emitEmbedNullableLeftJoin || v.Struct.isNone then
    false
  else
    match v.Struct with
    | none => false
    | some s => s.Fields.any (fun f => decide (f.EmbedFields.length > 0) && f.EmbedIsNullable)

def QueryValue.NullableEmbedTempVars (v : QueryValue) : List String :=
  match v.Struct with
  | none => []
  | some s =>
    s.Fields.foldl
      (fun vars f =>
        if decide (f.EmbedFields.length > 0) && f.EmbedIsNullable then
          f.EmbedFields.foldl
            (fun vars embed =>
              vars ++ ["var " ++ v.Name ++ "Embed" ++ f.Name ++ embed.Name ++ " "
                ++ makeNullableType embed.Type_])
            vars
        else
          vars) []

/-- Lines 295 to 306 of `NullableEmbedAssignments`: the checks of one nullable
embed, or the panic when it has no primary key. -/
def primaryKeyChecks (v : QueryValue) (f : Field) : Except String (List String) :=
  if f.EmbedPrimaryKeys.length > 0 then
    .ok (f.EmbedPrimaryKeys.foldl
      (fun checks pk => checks ++ [v.Name ++ "Embed" ++ f.Name ++ pk.Name ++ ".Valid"]) [])
  else if f.EmbedFields.length > 0 then
    .error ("No primary key found for embedded table " ++ f.Name
      ++ ". Primary key information is required for nullable LEFT JOIN handling.")
  else
    .ok []

/-- Lines 315 to 318 of `NullableEmbedAssignments`. -/
def structTypeOf (f : Field) : Except String String :=
  if hasPrefix f.Type_ "sql.Null[" && hasSuffix f.Type_ "]" then
    sliceString f.Type_ 9 (f.Type_.utf8ByteSize - 1)
  else
    .ok f.Type_

/-- One iteration of the loop of `NullableEmbedAssignments` over the fields
(lines 293 to 333). -/
def assignmentsStep (v : QueryValue) (assignments : List String) (f : Field) :
    Except String (List String) :=
  if decide (f.EmbedFields.length > 0) && f.EmbedIsNullable then
    match primaryKeyChecks v f with
    | .error e => .error e
    | .ok checks =>
      if checks.length > 0 then
        let checkCondition := stringsJoin checks " || "
        let assignments := assignments ++ ["if " ++ checkCondition ++ " \x7b"]
        let assignments := assignments ++ ["    " ++ v.Name ++ "." ++ f.Name ++ ".Valid = true"]
        match structTypeOf f with
        | .error e => .error e
        | .ok structType =>
          let assignments :=
            assignments ++ ["    " ++ v.Name ++ "." ++ f.Name ++ ".V = " ++ structType ++ "\x7b"]
          let assignments := f.EmbedFields.foldl
            (fun assignments embed =>
              assignments ++ ["        " ++ embed.Name ++ ": "
                ++ extractNullableValue (v.Name ++ "Embed" ++ f.Name ++ embed.Name) embed.Type_
                ++ ","])
            assignments
          let assignments := assignments ++ ["    \x7d"]
          .ok (assignments ++ ["\x7d"])
      else
        .ok assignments
  else
    .ok assignments

/-- The loop over the fields: a panic in one iteration ends the run. -/
def assignmentsLoop (v : QueryValue) : List Field → List String → Except String (List String)
  | [], assignments => .ok assignments
  | f :: rest, assignments =>
    match assignmentsStep v assignments f with
    | .error e => .error e
    | .ok assignments => assignmentsLoop v rest assignments

def QueryValue.NullableEmbedAssignments (v : QueryValue) : Except String (List String) :=
  match v.Struct with
  | none => .ok []
  | some s => assignmentsLoop v s.Fields []

/-! ## Scan destinations -/

/-- The slice `out` of `QueryValue.ScanWithOptions` when the formatting starts
(query.go line 382). -/
def QueryValue.ScanWithOptions_out (p : Pkg) (v : QueryValue)
    (emitEmbedNullableLeftJoin : Bool) : List String :=
  match v.Struct with
  | none =>
    if hasPrefix v.Typ "[]" && v.Typ != "[]byte" && !p.IsPGX v.SQLDriver then
      ["pq.Array(&" ++ v.Name ++ ")"]
    else
      ["&" ++ v.Name]
  | some s =>
    s.Fields.foldl
      (fun out f =>
        if decide (f.EmbedFields.length > 0) && f.EmbedIsNullable
            && emitEmbedNullableLeftJoin then
          f.EmbedFields.foldl
            (fun out embed =>
              let tempName := v.Name ++ "Embed" ++ f.Name ++ embed.Name
              if hasPrefix embed.Type_ "[]" && embed.Type_ != "[]byte"
                  && !p.IsPGX v.SQLDriver then
                out ++ ["pq.Array(&" ++ tempName ++ ")"]
              else
                out ++ ["&" ++ tempName])
            out
        else if f.EmbedFields.length > 0 then
          f.EmbedFields.foldl
            (fun out embed =>
              if hasPrefix embed.Type_ "[]" && embed.Type_ != "[]byte"
                  && !p.IsPGX v.SQLDriver then
                out ++ ["pq.Array(&" ++ v.Name ++ "." ++ f.Name ++ "." ++ embed.Name ++ ")"]
              else
                out ++ ["&" ++ v.Name ++ "." ++ f.Name ++ "." ++ embed.Name])
            out
        else if hasPrefix f.Type_ "[]" && f.Type_ != "[]byte" && !p.IsPGX v.SQLDriver then
          out ++ ["pq.Array(&" ++ v.Name ++ "." ++ f.Name ++ ")"]
        else
          out ++ ["&" ++ v.Name ++ "." ++ f.Name]) []

def QueryValue.ScanWithOptions (p : Pkg) (v : QueryValue)
    (emitEmbedNullableLeftJoin : Bool) : String :=
  let out := v.ScanWithOptions_out p emitEmbedNullableLeftJoin
  if out.length ≤ 3 then
    stringsJoin out ","
  else
    "\n" ++ stringsJoin (out ++ [""]) ",\n"

def QueryValue.Scan (p : Pkg) (v : QueryValue) : String :=
  v.ScanWithOptions p false

/-! ## Field deduplication -/

/-- The loop of `UniqueFields` (query.go lines 115 to 121): `seen` holds the
keys of the map, `fields` the slice built so far. -/
def uniqueFieldsLoop : List Field → List String → List Field → List Field
  | [], _, fields => fields
  | field :: rest, seen, fields =>
    if field.Name ∈ seen then
      uniqueFieldsLoop rest seen fields
    else
      uniqueFieldsLoop rest (field.Name :: seen) (fields ++ [field])

/-- Method `QueryValue.UniqueFields`; it reads `v.Struct.Fields` without a nil
test. -/
def QueryValue.UniqueFields (v : QueryValue) : Except String (List Field) :=
  match v.Struct with
  | none => .error nilDeref
  | some s => .ok (uniqueFieldsLoop s.Fields [] [])

/-! ## Column names and table identifiers -/

def QueryValue.ColumnNames (v : QueryValue) : List String :=
  match v.Struct with
  | none => [v.DBName]
  | some s => s.Fields.map (fun f => f.DBName)

/-- Method `QueryValue.ColumnNamesAsGoSlice`; `goQuote s` stands for Go
`fmt.Sprintf("%q", s)`, the Go-syntax quoting of the library, a parameter of
the embedding. -/
def QueryValue.ColumnNamesAsGoSlice (goQuote : String → String) (v : QueryValue) : String :=
  match v.Struct with
  | none => "[]string\x7b" ++ goQuote v.DBName ++ "\x7d"
  | some s =>
    let escapedNames := s.Fields.map
      (fun f =>
        match f.Column with
        | some c => if c.OriginalName != "" then goQuote c.OriginalName else goQuote f.DBName
        | none => goQuote f.DBName)
    "[]string\x7b" ++ stringsJoin escapedNames ", " ++ "\x7d"

/-- The members of `plugin.Identifier`. -/
structure Identifier where
  Catalog : String
  Schema : String
  Name : String

/-- A struct used to generate methods and fields on the Queries struct. -/
structure Query where
  Cmd : String
  Comments : List String
  MethodName : String
  FieldName : String
  ConstantName : String
  SQL : String
  SourceName : String
  Ret : QueryValue
  Arg : QueryValue
  Table : Option Identifier

def Query.TableIdentifierAsGoSlice (goQuote : String → String) (q : Query) :
    Except String String :=
  match q.Table with
  | none => .error nilDeref
  | some t =>
    let escapedNames := [t.Catalog, t.Schema, t.Name].foldl
      (fun escapedNames part =>
        if part != "" then escapedNames ++ [goQuote part] else escapedNames) []
    .ok ("[]string\x7b" ++ stringsJoin escapedNames ", " ++ "\x7d")

def Query.TableIdentifierForMySQL (q : Query) : Except String String :=
  match q.Table with
  | none => .error nilDeref
  | some t =>
    let escapedNames := [t.Catalog, t.Schema, t.Name].foldl
      (fun escapedNames part =>
        if part != "" then escapedNames ++ ["`" ++ part ++ "`"] else escapedNames) []
    .ok (stringsJoin escapedNames ".")

/-! ## Notions used in the statements -/

namespace Spec

/-- A field is a nullable embed when it has embedded fields and is marked
nullable (the test of query.go lines 198, 216 and 293). -/
def isNullableEmbed (f : Field) : Bool :=
  decide (f.EmbedFields.length > 0) && f.EmbedIsNullable

/-- Name of the temporary that receives embedded field `e` of the nullable
embed `f`: the wrapper's name, the literal `Embed`, the name of `f`, the name
of `e`. -/
def tempName (v : QueryValue) (f e : Field) : String :=
  v.Name ++ "Embed" ++ f.Name ++ e.Name

/-- Guard line of a nullable embed: the `.Valid` members of the temporaries of
its primary keys, in order, joined by `||`. -/
def guardLine (v : QueryValue) (f : Field) : String :=
  "if " ++ stringsJoin (f.EmbedPrimaryKeys.map (fun pk => tempName v f pk ++ ".Valid")) " || "
    ++ " \x7b"

/-- Line that marks the slot of the nullable embed `f` as present. -/
def validLine (v : QueryValue) (f : Field) : String :=
  "    " ++ v.Name ++ "." ++ f.Name ++ ".Valid = true"

/-- Record type written in the assignment of the nullable embed `f`; the
field's type when the extraction of query.go line 317 would fail. -/
def structTypeText (f : Field) : String :=
  match structTypeOf f with
  | .ok t => t
  | .error _ => f.Type_

/-- Line that assigns embedded field `e` of the nullable embed `f`. -/
def fieldLine (v : QueryValue) (f e : Field) : String :=
  "        " ++ e.Name ++ ": " ++ extractNullableValue (tempName v f e) e.Type_ ++ ","

/-- The lines of one nullable embed: guard, presence mark, opening of the
record, one line per embedded field, two closing lines. -/
def assignmentBlock (v : QueryValue) (f : Field) : List String :=
  [guardLine v f, validLine v f,
    "    " ++ v.Name ++ "." ++ f.Name ++ ".V = " ++ structTypeText f ++ "\x7b"]
    ++ f.EmbedFields.map (fieldLine v f) ++ ["    \x7d", "\x7d"]

/-- A nullable embed that carries no primary key. -/
def lacksPrimaryKey (f : Field) : Bool :=
  isNullableEmbed f && decide (f.EmbedPrimaryKeys.length = 0)

/-- An expression `e` of static type `typ` as bound parameter: wrapped in the
array adapter when the value is not a spread parameter, the type is
list-shaped and not `[]byte`, and the driver is not pgx; bare otherwise. -/
def paramEntry (p : Pkg) (v : QueryValue) (spread : Bool) (typ e : String) : String :=
  if !spread && hasPrefix typ "[]" && typ != "[]byte" && !p.IsPGX v.SQLDriver then
    "pq.Array(" ++ e ++ ")"
  else
    e

/-- The bound-parameter entry of field `f` of a record-valued wrapper. -/
def fieldParamEntry (p : Pkg) (v : QueryValue) (f : Field) : String :=
  paramEntry p v (p.HasSqlcSlice f) f.Type_ (p.escape (v.VariableForField p f))

/-- The address of `target`, of static type `typ`, as scan destination:
wrapped in the array adapter when the type is list-shaped and not `[]byte` and
the driver is not pgx. -/
def scanDest (p : Pkg) (v : QueryValue) (typ target : String) : String :=
  if hasPrefix typ "[]" && typ != "[]byte" && !p.IsPGX v.SQLDriver then
    "pq.Array(&" ++ target ++ ")"
  else
    "&" ++ target

/-- The scan destinations of field `f`: the temporaries of a nullable embed
when the support is enabled, the embedded fields through the parent
otherwise, the field itself when it is plain. -/
def fieldScanEntries (p : Pkg) (v : QueryValue) (flag : Bool) (f : Field) : List String :=
  if isNullableEmbed f && flag then
    f.EmbedFields.map (fun e => scanDest p v e.Type_ (tempName v f e))
  else if f.EmbedFields.length > 0 then
    f.EmbedFields.map (fun e => scanDest p v e.Type_ (v.Name ++ "." ++ f.Name ++ "." ++ e.Name))
  else
    [scanDest p v f.Type_ (v.Name ++ "." ++ f.Name)]

/-- Number of columns behind a field: its embedded fields, or one. -/
def columnCount (f : Field) : Nat :=
  if f.EmbedFields.length > 0 then f.EmbedFields.length else 1

/-- The formatting rule of entry lists: at most three entries are joined by a
comma; four or more are written after a newline, each followed by a comma and
a newline. -/
def render (entries : List String) : String :=
  if entries.length ≤ 3 then
    ",".intercalate entries
  else
    "\n" ++ String.join (entries.map (fun e => e ++ ",\n"))

/-- The temporaries of a record: name and declared type of every embedded
field of every nullable embed, in field order. -/
def temporaries (v : QueryValue) (s : Struct) : List (String × String) :=
  (s.Fields.filter isNullableEmbed).flatMap
    (fun f => f.EmbedFields.map (fun e => (v.Name ++ "Embed" ++ f.Name ++ e.Name, e.Type_)))

/-- Last character of a string. -/
def lastChar (s : String) : Option Char :=
  s.data.getLast?

/-- The database column behind a field: the original name of its column when
the column metadata is present and names one, the field's `DBName`
otherwise. -/
def backingName (f : Field) : String :=
  match f.Column with
  | some c => if c.OriginalName = "" then f.DBName else c.OriginalName
  | none => f.DBName

end Spec

/-! ## Sample values -/

namespace Sample

/-- A sample instance of the package functions: names are left unchanged, a
field is a spread parameter when its column says so, the pgx drivers are
the two pgx versions. -/
def pkg : Pkg where
  escape := fun s => s
  toLowerCase := fun s => s
  HasSqlcSlice := fun f =>
    match f.Column with
    | some c => c.IsSqlcSlice
    | none => false
  IsPGX := fun d => d == "pgx/v4" || d == "pgx/v5"

def plainField (name typ : String) : Field :=
  ⟨name, name, typ, none, [], false, []⟩

def authorStruct : Struct :=
  ⟨"GetAuthorParams", [plainField "ID" "int64", plainField "Name" "string"]⟩

/-- A record-valued wrapper that is flattened into its fields. -/
def flatArg : QueryValue :=
  ⟨false, false, "arg", "", some authorStruct, "", "database/sql", none⟩

/-- A record-valued wrapper emitted as one value, by reference. -/
def recordArg : QueryValue :=
  ⟨true, true, "arg", "", some authorStruct, "", "database/sql", none⟩

/-- The wrapper of a statement without parameters. -/
def emptyValue : QueryValue :=
  ⟨false, false, "", "", none, "", "database/sql", none⟩

/-- A scalar wrapper whose column metadata is not set. -/
def scalarNoColumn : QueryValue :=
  ⟨false, false, "id", "id", none, "int64", "database/sql", none⟩

def idField : Field := plainField "ID" "int32"

def nameField : Field := plainField "Name" "string"

/-- A nullable embed `Author` with two embedded fields and primary key `ID`. -/
def authorEmbed : Field :=
  ⟨"Author", "author", "sql.Null[Author]", none, [idField, nameField], true, [idField]⟩

/-- A nullable embed without primary-key metadata. -/
def authorEmbedNoKey : Field :=
  ⟨"Author", "author", "sql.Null[Author]", none, [idField, nameField], true, []⟩

/-- The result of a left join: a plain field and a nullable embed. -/
def joinRow : QueryValue :=
  ⟨true, false, "i", "", some ⟨"ListPostsRow", [plainField "Title" "string", authorEmbed]⟩,
    "", "database/sql", none⟩

def joinRowNoKey : QueryValue :=
  ⟨true, false, "i", "", some ⟨"ListPostsRow", [plainField "Title" "string", authorEmbedNoKey]⟩,
    "", "database/sql", none⟩

/-- A field bound through `sqlc.slice`: list-shaped and marked as spread. -/
def idsField : Field :=
  ⟨"Ids", "ids", "[]int64", some ⟨true, "ids"⟩, [], false, []⟩

/-- A record-valued parameter with a spread field, on a driver without native
arrays. -/
def sliceArg : QueryValue :=
  ⟨true, false, "arg", "", some ⟨"ListAuthorsParams", [idsField]⟩, "", "database/sql", none⟩

def tagsField : Field :=
  ⟨"Tags", "tags", "[]string", some ⟨false, "tags"⟩, [], false, []⟩

def tagsArg : QueryValue :=
  ⟨true, false, "arg", "", some ⟨"ListPostsParams", [tagsField]⟩, "", "database/sql", none⟩

/-- A scalar wrapper with column metadata. -/
def scalarArg : QueryValue :=
  ⟨false, false, "tags", "tags", none, "[]string", "database/sql", some ⟨false, "tags"⟩⟩

/-- The quoting of a text without quotes, backslashes or control characters. -/
def goQuote (s : String) : String :=
  "\"" ++ s ++ "\""

/-- A record whose fields repeat the name `A`. -/
def repeatedFields : QueryValue :=
  ⟨true, false, "i", "", some ⟨"Row", [plainField "A" "int32", plainField "B" "string",
    plainField "A" "int64", plainField "C" "bool"]⟩, "", "database/sql", none⟩

/-- A field whose column was renamed in the query. -/
def renamedField : Field :=
  ⟨"UserID", "user_id", "int64", some ⟨false, "user id"⟩, [], false, []⟩

/-- A field without column metadata whose database name differs from its
declared name. -/
def keyField : Field :=
  ⟨"ID", "id", "int64", none, [], false, []⟩

/-- A record with a field without column metadata and a renamed field. -/
def copyArg : QueryValue :=
  ⟨true, false, "arg", "", some ⟨"CopyParams", [keyField, renamedField]⟩,
    "", "database/sql", none⟩

/-- A bulk-copy statement into table `public.authors`, no catalog. -/
def copyQuery : Query :=
  ⟨":copyfrom", [], "CreateAuthors", "createAuthors", "createAuthors", "", "query.sql",
    emptyValue, copyArg, some ⟨"", "public", "authors"⟩⟩

end Sample

/-! ## General lemmas -/

theorem foldl_append_singleton {α β : Type} (g : α → β) (l : List α) (init : List β) :
    l.foldl (fun out x => out ++ [g x]) init = init ++ l.map g := by
  induction l generalizing init with
  | nil => simp
  | cons x xs ih => simp [ih]

theorem foldl_append_flatMap {α β : Type} (step : List β → α → List β) (g : α → List β)
    (hstep : ∀ out x, step out x = out ++ g x) (l : List α) (init : List β) :
    l.foldl step init = init ++ l.flatMap g := by
  induction l generalizing init with
  | nil => simp
  | cons x xs ih => simp [ih, hstep]

/-! ## Type resolution and argument list -/

/-- C2. `QueryValue.Type` returns `Typ` when it is non-empty (also when a
Struct is set), otherwise the name of the Struct when one is set; it panics
exactly when `Typ` is empty and `Struct` is nil, in particular on the empty
wrapper. -/
theorem type_contract (v : QueryValue) :
    (v.Typ ≠ "" → v.Type_ = .ok v.Typ) ∧
    (v.Typ = "" → ∀ s, v.Struct = some s → v.Type_ = .ok s.Name) ∧
    ((∃ e, v.Type_ = .error e) ↔ (v.Typ = "" ∧ v.Struct = none)) ∧
    (v.isEmpty = true → ∃ e, v.Type_ = .error e) := by
  have key : (∃ e, v.Type_ = .error e) ↔ (v.Typ = "" ∧ v.Struct = none) := by
    unfold QueryValue.Type_
    by_cases hT : v.Typ = ""
    · cases hS : v.Struct <;> simp [hT]
    · simp [hT]
  refine ⟨?_, ?_, key, ?_⟩
  · intro hT
    simp [QueryValue.Type_, hT]
  · intro hT s hS
    simp [QueryValue.Type_, hT, hS]
  · intro hE
    apply key.mpr
    simp [QueryValue.isEmpty] at hE
    exact ⟨hE.1.1, hE.2⟩

theorem type_contract_witness :
    Sample.recordArg.Type_ = .ok "GetAuthorParams" ∧
    (∃ e, Sample.emptyValue.Type_ = .error e) :=
  ⟨(type_contract Sample.recordArg).2.1 rfl Sample.authorStruct rfl,
   (type_contract Sample.emptyValue).2.2.2 rfl⟩

/-- C1. `QueryValue.Pairs` returns no argument for the empty wrapper; for a
wrapper holding a Struct with `Emit == false` it returns one argument per
field, the i-th with name `escape(toLowerCase(field_i.Name))` and the field's
type; for a wrapper holding a Struct with `Emit == true` it returns exactly
one argument, named `escape(v.Name)` and typed `v.DefineType()`. -/
theorem pairs_contract (p : Pkg) (v : QueryValue) :
    (v.Typ = "" ∧ v.Name = "" ∧ v.Struct = none → v.Pairs p = .ok []) ∧
    (∀ s, v.Struct = some s → v.Emit = false →
      ∃ args, v.Pairs p = .ok args ∧ args.length = s.Fields.length ∧
        args = s.Fields.map (fun f => ⟨p.escape (p.toLowerCase f.Name), f.Type_⟩)) ∧
    (∀ s, v.Struct = some s → v.Emit = true →
      ∃ t, v.DefineType = .ok t ∧ v.Pairs p = .ok [⟨p.escape v.Name, t⟩]) := by
  refine ⟨?_, ?_, ?_⟩
  · rintro ⟨hT, hN, hS⟩
    simp [QueryValue.Pairs, QueryValue.isEmpty, hT, hN, hS]
  · intro s hS hE
    refine ⟨_, ?_, ?_, rfl⟩
    · simp [QueryValue.Pairs, QueryValue.isEmpty, QueryValue.EmitStruct, hS, hE,
        foldl_append_singleton]
    · simp
  · intro s hS hE
    have hT : ∃ t, v.Type_ = .ok t := by
      unfold QueryValue.Type_
      by_cases hT : v.Typ = "" <;> simp [hT, hS]
    obtain ⟨t, ht⟩ := hT
    by_cases hP : v.IsPointer = true
    · refine ⟨"*" ++ t, ?_, ?_⟩
      · simp [QueryValue.DefineType, ht, hP]
      · simp [QueryValue.Pairs, QueryValue.isEmpty, QueryValue.EmitStruct, hS, hE,
          QueryValue.DefineType, ht, hP]
    · refine ⟨t, ?_, ?_⟩
      · simp [QueryValue.DefineType, ht, hP]
      · simp [QueryValue.Pairs, QueryValue.isEmpty, QueryValue.EmitStruct, hS, hE,
          QueryValue.DefineType, ht, hP]

theorem pairs_contract_witness :
    Sample.emptyValue.Pairs Sample.pkg = .ok [] ∧
    (∃ args, Sample.flatArg.Pairs Sample.pkg = .ok args ∧ args.length = 2 ∧
      args = [⟨"ID", "int64"⟩, ⟨"Name", "string"⟩]) ∧
    (∃ t, Sample.recordArg.DefineType = .ok t ∧
      Sample.recordArg.Pairs Sample.pkg = .ok [⟨"arg", t⟩]) :=
  ⟨(pairs_contract Sample.pkg Sample.emptyValue).1 ⟨rfl, rfl, rfl⟩,
   (pairs_contract Sample.pkg Sample.flatArg).2.1 Sample.authorStruct rfl rfl,
   (pairs_contract Sample.pkg Sample.recordArg).2.2 Sample.authorStruct rfl rfl⟩

/-! ## Nullable counterpart of a type -/

theorem makeNullableType_other (t : String)
    (h : t ∉ ["string", "int", "int32", "int64", "float32", "float64", "bool", "time.Time"]) :
    makeNullableType t = t := by
  simp only [List.mem_cons, List.mem_singleton, List.not_mem_nil, or_false, not_or] at h
  unfold makeNullableType
  split <;> simp_all

theorem makeNullableType_idem (t : String) :
    makeNullableType (makeNullableType t) = makeNullableType t := by
  by_cases h : t ∈ ["string", "int", "int32", "int64", "float32", "float64", "bool", "time.Time"]
  · simp only [List.mem_cons, List.mem_singleton, List.not_mem_nil, or_false] at h
    rcases h with h | h | h | h | h | h | h | h <;> subst h <;> decide
  · have ht := makeNullableType_other t h
    rw [ht, ht]

/-- C10. `makeNullableType` is a total function: the eight basic types are
sent to their `sql.Null*` wrapper, every other type string is returned
unchanged, in particular `[]byte` and every string that starts with
`sql.Null`; it is idempotent. -/
theorem makeNullableType_contract :
    makeNullableType "string" = "sql.NullString" ∧
    makeNullableType "int" = "sql.NullInt32" ∧
    makeNullableType "int32" = "sql.NullInt32" ∧
    makeNullableType "int64" = "sql.NullInt64" ∧
    makeNullableType "float32" = "sql.NullFloat64" ∧
    makeNullableType "float64" = "sql.NullFloat64" ∧
    makeNullableType "bool" = "sql.NullBool" ∧
    makeNullableType "time.Time" = "sql.NullTime" ∧
    (∀ t, t ∉ ["string", "int", "int32", "int64", "float32", "float64", "bool", "time.Time"] →
      makeNullableType t = t) ∧
    makeNullableType "[]byte" = "[]byte" ∧
    (∀ t, hasPrefix t "sql.Null" = true → makeNullableType t = t) ∧
    (∀ t, makeNullableType (makeNullableType t) = makeNullableType t) := by
  refine ⟨by decide, by decide, by decide, by decide, by decide, by decide, by decide,
    by decide, makeNullableType_other, by decide, ?_, makeNullableType_idem⟩
  intro t ht
  apply makeNullableType_other
  simp only [List.mem_cons, List.mem_singleton, List.not_mem_nil, or_false]
  rintro (h | h | h | h | h | h | h | h) <;> subst h <;> revert ht <;> decide

theorem makeNullableType_contract_witness :
    makeNullableType "uuid.UUID" = "uuid.UUID" ∧
    makeNullableType "sql.NullString" = "sql.NullString" :=
  ⟨makeNullableType_contract.2.2.2.2.2.2.2.2.1 "uuid.UUID" (by decide),
   makeNullableType_contract.2.2.2.2.2.2.2.2.2.2.1 "sql.NullString" (by decide)⟩

/-! ## Post-scan assignments of nullable embeds -/

theorem utf8Len_ge_length (cs : List Char) : cs.length ≤ String.utf8Len cs := by
  induction cs with
  | nil => simp
  | cons c cs ih =>
    have hc := Char.utf8Size_pos c
    simp only [List.length_cons, String.utf8Len_cons]
    omega

/-- The extraction `structType[9:len(structType)-1]` is reached only with a
string of at least ten bytes. -/
theorem ten_le_utf8ByteSize (t : String) (hp : hasPrefix t "sql.Null[" = true)
    (hs : hasSuffix t "]" = true) : 10 ≤ t.utf8ByteSize := by
  unfold hasPrefix at hp
  unfold hasSuffix at hs
  rw [List.isPrefixOf_iff_prefix] at hp
  rw [List.isSuffixOf_iff_suffix] at hs
  obtain ⟨r, hr⟩ := hp
  obtain ⟨u, hu⟩ := hs
  have hlen : 10 ≤ t.data.length := by
    cases r with
    | nil =>
      exfalso
      rw [← hr] at hu
      have h1 := congrArg List.getLast? hu
      simp at h1
    | cons c r =>
      rw [← hr]
      simp only [List.length_append, List.length_cons]
      have : "sql.Null[".data.length = 9 := by decide
      omega
  have h2 := utf8Len_ge_length t.data
  have h3 : t.utf8ByteSize = String.utf8Len t.data := rfl
  omega

theorem structTypeOf_eq (f : Field) : structTypeOf f = .ok (Spec.structTypeText f) := by
  have hok : ∃ t, structTypeOf f = .ok t := by
    unfold structTypeOf
    split
    · rename_i h
      simp only [Bool.and_eq_true] at h
      have h10 := ten_le_utf8ByteSize f.Type_ h.1 h.2
      unfold sliceString
      rw [if_pos (by omega)]
      exact ⟨_, rfl⟩
    · exact ⟨_, rfl⟩
  obtain ⟨t, ht⟩ := hok
  simp [Spec.structTypeText, ht]

theorem primaryKeyChecks_of_keys (v : QueryValue) (f : Field)
    (h : f.EmbedPrimaryKeys ≠ []) :
    primaryKeyChecks v f =
      .ok (f.EmbedPrimaryKeys.map (fun pk => Spec.tempName v f pk ++ ".Valid")) := by
  have hlen : f.EmbedPrimaryKeys.length > 0 := List.length_pos.mpr h
  unfold primaryKeyChecks
  rw [if_pos hlen, foldl_append_singleton]
  simp [Spec.tempName]

theorem assignmentsStep_plain (v : QueryValue) (acc : List String) (f : Field)
    (h : Spec.isNullableEmbed f = false) : assignmentsStep v acc f = .ok acc := by
  unfold Spec.isNullableEmbed at h
  simp [assignmentsStep, h]

theorem assignmentsStep_panic (v : QueryValue) (acc : List String) (f : Field)
    (h : Spec.lacksPrimaryKey f = true) : ∃ e, assignmentsStep v acc f = .error e := by
  simp only [Spec.lacksPrimaryKey, Spec.isNullableEmbed, Bool.and_eq_true,
    decide_eq_true_eq] at h
  obtain ⟨⟨h1, h2⟩, h3⟩ := h
  have hpk : ∃ e, primaryKeyChecks v f = .error e := by
    unfold primaryKeyChecks
    rw [if_neg (by omega), if_pos h1]
    exact ⟨_, rfl⟩
  obtain ⟨e, he⟩ := hpk
  refine ⟨e, ?_⟩
  simp [assignmentsStep, h1, h2, he]

theorem assignmentsStep_block (v : QueryValue) (acc : List String) (f : Field)
    (h : Spec.isNullableEmbed f = true) (hk : f.EmbedPrimaryKeys ≠ []) :
    assignmentsStep v acc f = .ok (acc ++ Spec.assignmentBlock v f) := by
  have hpk := primaryKeyChecks_of_keys v f hk
  have hlen : f.EmbedPrimaryKeys.length > 0 := List.length_pos.mpr hk
  unfold Spec.isNullableEmbed at h
  unfold assignmentsStep
  rw [if_pos h, hpk]
  simp only [List.length_map, hlen, if_true, structTypeOf_eq, foldl_append_singleton]
  simp [Spec.assignmentBlock, Spec.guardLine, Spec.validLine, Spec.fieldLine, Spec.tempName]

theorem assignmentsLoop_ok (v : QueryValue) (fields : List Field) (acc : List String)
    (h : ∀ f ∈ fields, Spec.lacksPrimaryKey f = false) :
    assignmentsLoop v fields acc =
      .ok (acc ++ (fields.filter Spec.isNullableEmbed).flatMap (Spec.assignmentBlock v)) := by
  induction fields generalizing acc with
  | nil => simp [assignmentsLoop]
  | cons f rest ih =>
    have hf := h f (List.mem_cons_self _ _)
    have hrest : ∀ g ∈ rest, Spec.lacksPrimaryKey g = false :=
      fun g hg => h g (List.mem_cons_of_mem _ hg)
    unfold assignmentsLoop
    by_cases hn : Spec.isNullableEmbed f = true
    · have hk : f.EmbedPrimaryKeys ≠ [] := by
        intro hnil
        simp [Spec.lacksPrimaryKey, hn, hnil] at hf
      rw [assignmentsStep_block v acc f hn hk]
      simp [ih _ hrest, hn]
    · simp only [Bool.not_eq_true] at hn
      rw [assignmentsStep_plain v acc f hn]
      simp [ih _ hrest, hn]

theorem assignmentsLoop_panic (v : QueryValue) (fields : List Field) (acc : List String)
    (h : ∃ f ∈ fields, Spec.lacksPrimaryKey f = true) :
    ∃ e, assignmentsLoop v fields acc = .error e := by
  induction fields generalizing acc with
  | nil => simp at h
  | cons f rest ih =>
    unfold assignmentsLoop
    by_cases hf : Spec.lacksPrimaryKey f = true
    · obtain ⟨e, he⟩ := assignmentsStep_panic v acc f hf
      exact ⟨e, by simp [he]⟩
    · have hrest : ∃ g ∈ rest, Spec.lacksPrimaryKey g = true := by
        obtain ⟨g, hg, hb⟩ := h
        rcases List.mem_cons.mp hg with rfl | hg
        · exact absurd hb hf
        · exact ⟨g, hg, hb⟩
      cases hstep : assignmentsStep v acc f with
      | error e => exact ⟨e, rfl⟩
      | ok acc2 => exact ih acc2 hrest

theorem lacksPrimaryKey_iff (f : Field) :
    Spec.lacksPrimaryKey f = true ↔
      (f.EmbedFields ≠ [] ∧ f.EmbedIsNullable = true ∧ f.EmbedPrimaryKeys = []) := by
  simp [Spec.lacksPrimaryKey, Spec.isNullableEmbed, List.length_pos, and_assoc]

/-- C3. `NullableEmbedAssignments` panics exactly when the wrapper holds a
Struct with a field that has embedded fields, is marked nullable and has no
primary key; a run that panics returns no list of lines, and without such a
field the function returns its lines. -/
theorem nullableEmbedAssignments_panic_iff (v : QueryValue) :
    ((∃ e, v.NullableEmbedAssignments = .error e) ↔
      ∃ s, v.Struct = some s ∧ ∃ f ∈ s.Fields,
        f.EmbedFields ≠ [] ∧ f.EmbedIsNullable = true ∧ f.EmbedPrimaryKeys = []) ∧
    ((∃ e, v.NullableEmbedAssignments = .error e) →
      ∀ lines, v.NullableEmbedAssignments ≠ .ok lines) ∧
    ((¬ ∃ s, v.Struct = some s ∧ ∃ f ∈ s.Fields,
        f.EmbedFields ≠ [] ∧ f.EmbedIsNullable = true ∧ f.EmbedPrimaryKeys = []) →
      ∃ lines, v.NullableEmbedAssignments = .ok lines) := by
  have hno : (¬ ∃ s, v.Struct = some s ∧ ∃ f ∈ s.Fields,
        f.EmbedFields ≠ [] ∧ f.EmbedIsNullable = true ∧ f.EmbedPrimaryKeys = []) →
      ∃ lines, v.NullableEmbedAssignments = .ok lines := by
    intro hn
    unfold QueryValue.NullableEmbedAssignments
    cases hS : v.Struct with
    | none => exact ⟨_, rfl⟩
    | some s =>
      refine ⟨_, assignmentsLoop_ok v s.Fields [] ?_⟩
      intro f hf
      by_contra hb
      simp only [Bool.not_eq_false] at hb
      exact hn ⟨s, hS, f, hf, (lacksPrimaryKey_iff f).mp hb⟩
  refine ⟨⟨?_, ?_⟩, ?_, hno⟩
  · rintro ⟨e, he⟩
    by_contra hn
    obtain ⟨lines, hl⟩ := hno hn
    rw [he] at hl
    cases hl
  · rintro ⟨s, hS, f, hf, hb⟩
    unfold QueryValue.NullableEmbedAssignments
    rw [hS]
    exact assignmentsLoop_panic v s.Fields [] ⟨f, hf, (lacksPrimaryKey_iff f).mpr hb⟩
  · rintro ⟨e, he⟩ lines hl
    rw [he] at hl
    cases hl

theorem nullableEmbedAssignments_panic_iff_witness :
    (∃ e, Sample.joinRowNoKey.NullableEmbedAssignments = .error e) ∧
    (∀ lines, Sample.joinRowNoKey.NullableEmbedAssignments ≠ .ok lines) ∧
    (∃ lines, Sample.flatArg.NullableEmbedAssignments = .ok lines) :=
  have hpanic : ∃ e, Sample.joinRowNoKey.NullableEmbedAssignments = .error e :=
    (nullableEmbedAssignments_panic_iff Sample.joinRowNoKey).1.mpr
      ⟨_, rfl, Sample.authorEmbedNoKey, by simp [Sample.joinRowNoKey],
        by simp [Sample.authorEmbedNoKey], rfl, rfl⟩
  ⟨hpanic, (nullableEmbedAssignments_panic_iff Sample.joinRowNoKey).2.1 hpanic,
    (nullableEmbedAssignments_panic_iff Sample.flatArg).2.2 (by
      rintro ⟨s, hS, f, hf, h1, h2, h3⟩
      cases hS
      simp [Sample.authorStruct, Sample.plainField] at hf
      rcases hf with rfl | rfl <;> simp at h1)⟩

/-! ## The presence guard -/

theorem lastChar_append (a b : String) (c : Char) (h : Spec.lastChar b = some c) :
    Spec.lastChar (a ++ b) = some c := by
  unfold Spec.lastChar at *
  rw [String.data_append, List.getLast?_append, h]
  rfl

theorem lastChar_guardLine (v : QueryValue) (f : Field) :
    Spec.lastChar (Spec.guardLine v f) = some '\x7b' :=
  lastChar_append _ _ _ rfl

theorem lastChar_validLine (v : QueryValue) (f : Field) :
    Spec.lastChar (Spec.validLine v f) = some 'e' :=
  lastChar_append _ _ _ rfl

theorem lastChar_fieldLine (v : QueryValue) (f e : Field) :
    Spec.lastChar (Spec.fieldLine v f e) = some ',' :=
  lastChar_append _ _ _ rfl

/-- In a concatenation, a marked element that directly follows its guard in
each part does so in the whole, provided the second part does not start with a
marked element. -/
theorem guarded_append {α : Type} (marked : α → Prop) (G : α → α → Prop) (A B : List α)
    (hA : ∀ pre x post, A = pre ++ x :: post → marked x →
      ∃ pre2 g, pre = pre2 ++ [g] ∧ G g x)
    (hB : ∀ pre x post, B = pre ++ x :: post → marked x →
      ∃ pre2 g, pre = pre2 ++ [g] ∧ G g x)
    (hhead : ∀ x, B.head? = some x → ¬ marked x) :
    ∀ pre x post, A ++ B = pre ++ x :: post → marked x →
      ∃ pre2 g, pre = pre2 ++ [g] ∧ G g x := by
  intro pre x post h hx
  rcases List.append_eq_append_iff.mp h with ⟨mid, h1, h2⟩ | ⟨mid, h1, h2⟩
  · obtain ⟨pre2, g, hp, hg⟩ := hB mid x post h2 hx
    exact ⟨A ++ pre2, g, by rw [h1, hp, List.append_assoc], hg⟩
  · cases mid with
    | nil =>
      simp only [List.nil_append] at h2
      exact absurd hx (hhead x (by rw [← h2]; rfl))
    | cons c mid =>
      simp only [List.cons_append, List.cons.injEq] at h2
      obtain ⟨hc, -⟩ := h2
      subst hc
      exact hA pre x mid h1 hx

theorem guarded_flatMap {α β : Type} (marked : α → Prop) (G : α → α → Prop)
    (B : β → List α) (l : List β)
    (hB : ∀ b ∈ l, ∀ pre x post, B b = pre ++ x :: post → marked x →
      ∃ pre2 g, pre = pre2 ++ [g] ∧ G g x)
    (hhead : ∀ b ∈ l, ∀ x, (B b).head? = some x → ¬ marked x) :
    ∀ pre x post, l.flatMap B = pre ++ x :: post → marked x →
      ∃ pre2 g, pre = pre2 ++ [g] ∧ G g x := by
  induction l using List.reverseRecOn with
  | nil =>
    intro pre x post h
    simp at h
  | append_singleton l b ih =>
    have hl := ih (fun c hc => hB c (List.mem_append_left _ hc))
      (fun c hc => hhead c (List.mem_append_left _ hc))
    have hb : b ∈ l ++ [b] := List.mem_append_right _ (List.mem_singleton_self b)
    have := guarded_append marked G (l.flatMap B) (B b) hl (hB b hb) (hhead b hb)
    simpa [List.flatMap_append] using this

theorem assignmentBlock_guarded (v : QueryValue) (f : Field) (pre post : List String)
    (x : String) (h : Spec.assignmentBlock v f = pre ++ x :: post)
    (hx : Spec.lastChar x = some 'e') :
    pre = [] ++ [Spec.guardLine v f] ∧ x = Spec.validLine v f := by
  unfold Spec.assignmentBlock at h
  match pre, h with
  | [], h =>
    simp only [List.cons_append, List.nil_append, List.cons.injEq] at h
    rw [← h.1, lastChar_guardLine] at hx
    exact absurd hx (by decide)
  | [a], h =>
    simp only [List.cons_append, List.nil_append, List.cons.injEq] at h
    exact ⟨by rw [h.1]; rfl, h.2.1.symm⟩
  | a :: b :: pre2, h =>
    exfalso
    simp only [List.cons_append, List.nil_append, List.cons.injEq] at h
    have hmem : x ∈ ("    " ++ v.Name ++ "." ++ f.Name ++ ".V = " ++ Spec.structTypeText f
        ++ "\x7b") :: (f.EmbedFields.map (Spec.fieldLine v f) ++ ["    \x7d", "\x7d"]) := by
      rw [h.2.2]
      simp
    simp only [List.mem_cons, List.mem_append, List.mem_map, List.mem_singleton,
      List.not_mem_nil, or_false] at hmem
    rcases hmem with rfl | ⟨e, -, rfl⟩ | rfl | rfl
    · rw [lastChar_append _ "\x7b" '\x7b' rfl] at hx
      exact absurd hx (by decide)
    · rw [lastChar_fieldLine] at hx
      exact absurd hx (by decide)
    · exact absurd hx (by decide)
    · exact absurd hx (by decide)

/-- C4. When `NullableEmbedAssignments` returns, its lines are the blocks of
the nullable embeds in field order; every such embed has a primary key and its
block starts with the line `if C_1 || ... || C_k` followed by an opening
brace, `C_i` being the `.Valid` member of the temporary of the i-th primary
key; with one primary key the condition is that single member; and a line
`    <v.Name>.<x>.Valid = true` occurs only directly after the guard line of a
nullable embed named `x`. -/
theorem presence_guard (v : QueryValue) (s : Struct) (lines : List String)
    (hS : v.Struct = some s) (h : v.NullableEmbedAssignments = .ok lines) :
    lines = (s.Fields.filter Spec.isNullableEmbed).flatMap (Spec.assignmentBlock v) ∧
    (∀ f ∈ s.Fields, Spec.isNullableEmbed f = true →
      f.EmbedPrimaryKeys ≠ [] ∧
      (Spec.assignmentBlock v f).head? = some ("if " ++ stringsJoin
        (f.EmbedPrimaryKeys.map (fun pk => v.Name ++ "Embed" ++ f.Name ++ pk.Name ++ ".Valid"))
        " || " ++ " \x7b") ∧
      ∀ pk, f.EmbedPrimaryKeys = [pk] →
        (Spec.assignmentBlock v f).head? =
          some ("if " ++ (v.Name ++ "Embed" ++ f.Name ++ pk.Name ++ ".Valid") ++ " \x7b")) ∧
    (∀ pre line post x, lines = pre ++ line :: post →
      line = "    " ++ v.Name ++ "." ++ x ++ ".Valid = true" →
      ∃ pre2 f, f ∈ s.Fields ∧ Spec.isNullableEmbed f = true ∧
        pre = pre2 ++ ["if " ++ stringsJoin
          (f.EmbedPrimaryKeys.map (fun pk => v.Name ++ "Embed" ++ f.Name ++ pk.Name ++ ".Valid"))
          " || " ++ " \x7b"] ∧
        line = "    " ++ v.Name ++ "." ++ f.Name ++ ".Valid = true") := by
  have hkeys : ∀ f ∈ s.Fields, Spec.lacksPrimaryKey f = false := by
    intro f hf
    by_contra hb
    simp only [Bool.not_eq_false] at hb
    obtain ⟨e, he⟩ := assignmentsLoop_panic v s.Fields [] ⟨f, hf, hb⟩
    unfold QueryValue.NullableEmbedAssignments at h
    rw [hS] at h
    simp only [he] at h
    cases h
  have hlines : lines =
      (s.Fields.filter Spec.isNullableEmbed).flatMap (Spec.assignmentBlock v) := by
    unfold QueryValue.NullableEmbedAssignments at h
    rw [hS] at h
    simp only [assignmentsLoop_ok v s.Fields [] hkeys, List.nil_append] at h
    cases h
    rfl
  refine ⟨hlines, ?_, ?_⟩
  · intro f hf hn
    refine ⟨?_, rfl, ?_⟩
    · intro hnil
      have := hkeys f hf
      simp [Spec.lacksPrimaryKey, hn, hnil] at this
    · intro pk hpk
      simp [Spec.assignmentBlock, Spec.guardLine, Spec.tempName, hpk, stringsJoin]
  · intro pre line post x hsplit hline
    have hmarked : Spec.lastChar line = some 'e' := by
      rw [hline]
      exact lastChar_append _ _ _ rfl
    rw [hlines] at hsplit
    obtain ⟨pre2, g, hpre, f, hf, hg, hl⟩ := guarded_flatMap
      (fun l => Spec.lastChar l = some 'e')
      (fun g l => ∃ f ∈ s.Fields.filter Spec.isNullableEmbed,
        g = Spec.guardLine v f ∧ l = Spec.validLine v f)
      (Spec.assignmentBlock v) (s.Fields.filter Spec.isNullableEmbed)
      (fun f hf pre y post hb hy =>
        ⟨[], Spec.guardLine v f, (assignmentBlock_guarded v f pre post y hb hy).1,
          f, hf, rfl, (assignmentBlock_guarded v f pre post y hb hy).2⟩)
      (fun f _ y hy hm => by
        simp only [Spec.assignmentBlock, List.cons_append, List.head?_cons,
          Option.some.injEq] at hy
        rw [← hy, lastChar_guardLine] at hm
        exact absurd hm (by decide))
      pre line post hsplit hmarked
    rw [List.mem_filter] at hf
    exact ⟨pre2, f, hf.1, hf.2, by rw [hpre, hg]; rfl, hl⟩

theorem presence_guard_witness :
    Sample.joinRow.NullableEmbedAssignments = .ok
      ["if iEmbedAuthorID.Valid \x7b", "    i.Author.Valid = true", "    i.Author.V = Author\x7b",
       "        ID: int32(iEmbedAuthorID.Int32),", "        Name: iEmbedAuthorName.String,",
       "    \x7d", "\x7d"] ∧
    (Spec.assignmentBlock Sample.joinRow Sample.authorEmbed).head? =
      some ("if " ++ ("i" ++ "Embed" ++ "Author" ++ "ID" ++ ".Valid") ++ " \x7b") :=
  ⟨rfl, ((presence_guard Sample.joinRow _ _ rfl rfl).2.1 Sample.authorEmbed
    (by simp [Sample.authorEmbed]) rfl).2.2 Sample.idField rfl⟩

/-! ## Entry lists of `Params` and `ScanWithOptions` -/

theorem foldl_append_ite {α β : Type} (c : α → Bool) (a b : α → β) (l : List α)
    (init : List β) :
    l.foldl (fun out x => if c x = true then out ++ [a x] else out ++ [b x]) init =
      init ++ l.map (fun x => if c x = true then a x else b x) := by
  induction l generalizing init with
  | nil => simp
  | cons x xs ih =>
    simp only [List.foldl_cons, List.map_cons]
    by_cases hc : c x = true <;> simp [hc, ih]

theorem params_out_record (p : Pkg) (v : QueryValue) (s : Struct) (hS : v.Struct = some s) :
    v.Params_out p = .ok (s.Fields.map (Spec.fieldParamEntry p v)) := by
  unfold QueryValue.Params_out
  rw [hS]
  simp only [foldl_append_ite, List.nil_append]
  rfl

theorem params_out_scalar (p : Pkg) (v : QueryValue) (c : Column) (hS : v.Struct = none)
    (hC : v.Column = some c) :
    v.Params_out p = .ok [Spec.paramEntry p v c.IsSqlcSlice v.Typ (p.escape v.Name)] := by
  unfold QueryValue.Params_out Spec.paramEntry
  rw [hS, hC]
  simp only []
  split <;> rfl

theorem scan_step (p : Pkg) (v : QueryValue) (flag : Bool) (out : List String) (f : Field) :
    (if (decide (f.EmbedFields.length > 0) && f.EmbedIsNullable && flag) = true then
      f.EmbedFields.foldl
        (fun out embed =>
          let tempName := v.Name ++ "Embed" ++ f.Name ++ embed.Name
          if (hasPrefix embed.Type_ "[]" && embed.Type_ != "[]byte"
              && !p.IsPGX v.SQLDriver) = true then
            out ++ ["pq.Array(&" ++ tempName ++ ")"]
          else
            out ++ ["&" ++ tempName])
        out
    else if f.EmbedFields.length > 0 then
      f.EmbedFields.foldl
        (fun out embed =>
          if (hasPrefix embed.Type_ "[]" && embed.Type_ != "[]byte"
              && !p.IsPGX v.SQLDriver) = true then
            out ++ ["pq.Array(&" ++ v.Name ++ "." ++ f.Name ++ "." ++ embed.Name ++ ")"]
          else
            out ++ ["&" ++ v.Name ++ "." ++ f.Name ++ "." ++ embed.Name])
        out
    else if (hasPrefix f.Type_ "[]" && f.Type_ != "[]byte" && !p.IsPGX v.SQLDriver) = true then
      out ++ ["pq.Array(&" ++ v.Name ++ "." ++ f.Name ++ ")"]
    else
      out ++ ["&" ++ v.Name ++ "." ++ f.Name]) = out ++ Spec.fieldScanEntries p v flag f := by
  unfold Spec.fieldScanEntries Spec.isNullableEmbed Spec.scanDest Spec.tempName
  simp only [foldl_append_ite]
  split
  · rfl
  · split
    · simp only [String.append_assoc]
    · split <;> simp only [String.append_assoc]

theorem scan_out_record (p : Pkg) (v : QueryValue) (s : Struct) (hS : v.Struct = some s)
    (flag : Bool) :
    v.ScanWithOptions_out p flag = s.Fields.flatMap (Spec.fieldScanEntries p v flag) := by
  unfold QueryValue.ScanWithOptions_out
  rw [hS]
  simp only []
  rw [foldl_append_flatMap _ (Spec.fieldScanEntries p v flag) (scan_step p v flag)]
  simp

theorem scan_out_scalar (p : Pkg) (v : QueryValue) (hS : v.Struct = none) (flag : Bool) :
    v.ScanWithOptions_out p flag = [Spec.scanDest p v v.Typ v.Name] := by
  unfold QueryValue.ScanWithOptions_out Spec.scanDest
  rw [hS]
  simp only []
  split <;> rfl

/-! ## Formatting of entry lists -/

theorem join_foldl (l : List String) (init : String) :
    l.foldl (fun r x => r ++ x) init = init ++ String.join l := by
  induction l generalizing init with
  | nil => simp [String.join]
  | cons a l ih =>
    simp only [List.foldl_cons, String.join]
    rw [ih (init ++ a), ih ("" ++ a)]
    simp [String.append_assoc]

theorem join_cons (a : String) (l : List String) :
    String.join (a :: l) = a ++ String.join l := by
  simp only [String.join, List.foldl_cons]
  rw [join_foldl l ("" ++ a)]
  simp [String.join]

theorem intercalate_go (acc sep : String) (l : List String) :
    String.intercalate.go acc sep l = acc ++ String.join (l.map (fun x => sep ++ x)) := by
  induction l generalizing acc with
  | nil => simp [String.intercalate.go, String.join]
  | cons a l ih =>
    simp only [String.intercalate.go, List.map_cons, join_cons]
    rw [ih]
    simp [String.append_assoc]

theorem stringsJoin_cons (a sep : String) (l : List String) :
    stringsJoin (a :: l) sep = a ++ String.join (l.map (fun x => sep ++ x)) := by
  induction l generalizing a with
  | nil => simp [stringsJoin, String.join]
  | cons b l ih =>
    simp only [stringsJoin, List.map_cons, join_cons]
    rw [ih]
    simp [String.append_assoc]

/-- The embedding of `strings.Join` is the library function that intercalates
the separator. -/
theorem stringsJoin_eq_intercalate (l : List String) (sep : String) :
    stringsJoin l sep = sep.intercalate l := by
  cases l with
  | nil => rfl
  | cons a l =>
    rw [stringsJoin_cons]
    simp only [String.intercalate]
    rw [intercalate_go]

theorem stringsJoin_trailing (l : List String) (sep : String) :
    stringsJoin (l ++ [""]) sep = String.join (l.map (fun x => x ++ sep)) := by
  induction l with
  | nil => simp [stringsJoin, String.join]
  | cons a l ih =>
    cases l with
    | nil => simp [stringsJoin, join_cons, String.join]
    | cons b l =>
      simp only [List.cons_append, stringsJoin, List.map_cons, join_cons] at ih ⊢
      have happ : l.append [""] = l ++ [""] := rfl
      rw [happ, ih]

/-- C7. `Params` and `ScanWithOptions` format the entry list they computed by
one rule: up to three entries are joined by a comma, with nothing before or
after; four or more are written as a newline followed by every entry, each
directly followed by a comma and a newline. -/
theorem inline_multiline_format (p : Pkg) (v : QueryValue) :
    (∀ entries, v.isEmpty = false → v.Params_out p = .ok entries →
      v.Params p = .ok (Spec.render entries)) ∧
    (∀ flag, v.ScanWithOptions p flag = Spec.render (v.ScanWithOptions_out p flag)) ∧
    (∀ e1 e2 e3 : String, Spec.render [e1, e2, e3] = e1 ++ "," ++ e2 ++ "," ++ e3) ∧
    (∀ e1 e2 e3 e4 : String, Spec.render [e1, e2, e3, e4] =
      "\n" ++ e1 ++ ",\n" ++ e2 ++ ",\n" ++ e3 ++ ",\n" ++ e4 ++ ",\n") ∧
    (∀ entries : List String, entries.length ≤ 3 →
      Spec.render entries = ",".intercalate entries) ∧
    (∀ entries : List String, 4 ≤ entries.length →
      Spec.render entries = "\n" ++ String.join (entries.map (fun e => e ++ ",\n"))) := by
  refine ⟨?_, ?_, ?_, ?_, ?_, ?_⟩
  · intro entries hE hout
    unfold QueryValue.Params Spec.render
    rw [hE, hout]
    simp only [Bool.false_eq_true, if_false]
    split
    · rw [stringsJoin_eq_intercalate]
    · rw [stringsJoin_trailing]
  · intro flag
    unfold QueryValue.ScanWithOptions Spec.render
    simp only []
    split
    · rw [stringsJoin_eq_intercalate]
    · rw [stringsJoin_trailing]
  · intro e1 e2 e3
    simp [Spec.render, String.intercalate, String.intercalate.go]
  · intro e1 e2 e3 e4
    simp [Spec.render, join_cons, String.join, String.append_assoc]
  · intro entries h
    simp [Spec.render, h]
  · intro entries h
    have : ¬ entries.length ≤ 3 := by omega
    simp [Spec.render, this]

theorem inline_multiline_format_witness :
    Sample.joinRow.Params Sample.pkg = .ok (Spec.render ["i.Title", "i.Author"]) ∧
    Spec.render ["a", "b", "c"] = ",".intercalate ["a", "b", "c"] ∧
    Spec.render ["a", "b", "c", "d"] =
      "\n" ++ String.join (["a", "b", "c", "d"].map (fun e => e ++ ",\n")) :=
  ⟨(inline_multiline_format Sample.pkg Sample.joinRow).1 _ rfl rfl,
   (inline_multiline_format Sample.pkg Sample.joinRow).2.2.2.2.1 _ (by decide),
   (inline_multiline_format Sample.pkg Sample.joinRow).2.2.2.2.2 _ (by decide)⟩

/-! ## Array wrapping in `Params` and `ScanWithOptions` -/

/-- C5, counterexample. A plain field of type `[]int64` that is bound through
`sqlc.slice`, on a driver that is not pgx: its scan destination is wrapped in
`pq.Array`, its bound parameter is not. -/
theorem array_wrap_symmetry_counterexample :
    Sample.sliceArg.Struct = some ⟨"ListAuthorsParams", [Sample.idsField]⟩ ∧
    Sample.idsField.EmbedFields.length = 0 ∧
    hasPrefix Sample.idsField.Type_ "[]" = true ∧
    Sample.idsField.Type_ ≠ "[]byte" ∧
    Sample.pkg.IsPGX Sample.sliceArg.SQLDriver = false ∧
    Sample.sliceArg.ScanWithOptions_out Sample.pkg false = ["pq.Array(&arg.Ids)"] ∧
    Sample.sliceArg.ScanWithOptions_out Sample.pkg true = ["pq.Array(&arg.Ids)"] ∧
    Sample.sliceArg.Params_out Sample.pkg = .ok ["arg.Ids"] ∧
    Sample.sliceArg.Params_out Sample.pkg ≠ .ok ["pq.Array(arg.Ids)"] := by
  refine ⟨rfl, rfl, rfl, by decide, rfl, rfl, rfl, rfl, by decide⟩

/-- C5, amended. For a record-valued wrapper the entries of `Params` and of
`ScanWithOptions` are computed field by field. For a plain field whose type
starts with `[]` and is not `[]byte`: when the driver is not pgx the scan
destination is wrapped in `pq.Array`, and the bound parameter is wrapped
provided the field is not a `sqlc.slice` parameter; when the driver is pgx
both are bare. A plain field of type `[]byte` is bare in both for every
driver. -/
theorem array_wrap_symmetry (p : Pkg) (v : QueryValue) (s : Struct)
    (hS : v.Struct = some s) :
    v.Params_out p = .ok (s.Fields.map (Spec.fieldParamEntry p v)) ∧
    (∀ flag, v.ScanWithOptions_out p flag =
      s.Fields.flatMap (Spec.fieldScanEntries p v flag)) ∧
    (∀ f flag, f.EmbedFields = [] → hasPrefix f.Type_ "[]" = true → f.Type_ ≠ "[]byte" →
      (p.IsPGX v.SQLDriver = false →
        Spec.fieldScanEntries p v flag f = ["pq.Array(&" ++ v.Name ++ "." ++ f.Name ++ ")"] ∧
        (p.HasSqlcSlice f = false → Spec.fieldParamEntry p v f =
          "pq.Array(" ++ p.escape (v.VariableForField p f) ++ ")") ∧
        (p.HasSqlcSlice f = true → Spec.fieldParamEntry p v f =
          p.escape (v.VariableForField p f))) ∧
      (p.IsPGX v.SQLDriver = true →
        Spec.fieldScanEntries p v flag f = ["&" ++ v.Name ++ "." ++ f.Name] ∧
        Spec.fieldParamEntry p v f = p.escape (v.VariableForField p f))) ∧
    (∀ f flag, f.EmbedFields = [] → f.Type_ = "[]byte" →
      Spec.fieldScanEntries p v flag f = ["&" ++ v.Name ++ "." ++ f.Name] ∧
      Spec.fieldParamEntry p v f = p.escape (v.VariableForField p f)) := by
  refine ⟨params_out_record p v s hS, scan_out_record p v s hS, ?_, ?_⟩
  · intro f flag hE hP hB
    have hB2 : (f.Type_ != "[]byte") = true := by simpa using hB
    constructor
    · intro hD
      refine ⟨?_, ?_, ?_⟩
      · simp [Spec.fieldScanEntries, Spec.isNullableEmbed, Spec.scanDest, hE, hP, hB2, hD,
          String.append_assoc]
      · intro hSl
        simp [Spec.fieldParamEntry, Spec.paramEntry, hP, hB2, hD, hSl]
      · intro hSl
        simp [Spec.fieldParamEntry, Spec.paramEntry, hSl]
    · intro hD
      refine ⟨?_, ?_⟩
      · simp [Spec.fieldScanEntries, Spec.isNullableEmbed, Spec.scanDest, hE, hD,
          String.append_assoc]
      · simp [Spec.fieldParamEntry, Spec.paramEntry, hD]
  · intro f flag hE hB
    refine ⟨?_, ?_⟩
    · simp [Spec.fieldScanEntries, Spec.isNullableEmbed, Spec.scanDest, hE, hB,
        String.append_assoc]
    · simp [Spec.fieldParamEntry, Spec.paramEntry, hB]

theorem array_wrap_symmetry_witness :
    Sample.tagsArg.Params_out Sample.pkg = .ok ["pq.Array(arg.Tags)"] ∧
    Sample.tagsArg.ScanWithOptions_out Sample.pkg true = ["pq.Array(&arg.Tags)"] ∧
    Spec.fieldScanEntries Sample.pkg Sample.tagsArg true Sample.tagsField =
      ["pq.Array(&" ++ "arg" ++ "." ++ "Tags" ++ ")"] :=
  ⟨(array_wrap_symmetry Sample.pkg Sample.tagsArg _ rfl).1,
   (array_wrap_symmetry Sample.pkg Sample.tagsArg _ rfl).2.1 true,
   (((array_wrap_symmetry Sample.pkg Sample.tagsArg _ rfl).2.2.1 Sample.tagsField true
      rfl rfl (by decide)).1 rfl).1⟩

/-! ## The entry rule of `Params` -/

/-- C6, failing input. A scalar wrapper with a name and a type whose `Column`
is nil: `Params` dereferences the nil pointer at query.go line 132. -/
theorem params_scalar_without_column :
    Sample.scalarNoColumn.isEmpty = false ∧
    Sample.scalarNoColumn.Struct = none ∧
    Sample.scalarNoColumn.Column = none ∧
    Sample.scalarNoColumn.Params Sample.pkg = .error nilDeref := by
  refine ⟨rfl, rfl, rfl, rfl⟩

theorem paramEntry_rule (p : Pkg) (v : QueryValue) (spread : Bool) (typ e : String) :
    (Spec.paramEntry p v spread typ e = "pq.Array(" ++ e ++ ")" ↔
      (spread = false ∧ hasPrefix typ "[]" = true ∧ typ ≠ "[]byte" ∧
        p.IsPGX v.SQLDriver = false)) ∧
    (¬ (spread = false ∧ hasPrefix typ "[]" = true ∧ typ ≠ "[]byte" ∧
        p.IsPGX v.SQLDriver = false) → Spec.paramEntry p v spread typ e = e) := by
  have hne : e ≠ "pq.Array(" ++ e ++ ")" := by
    intro h
    have hlen := congrArg String.length h
    simp only [String.length_append] at hlen
    have h1 : "pq.Array(".length = 9 := by decide
    have h2 : ")".length = 1 := by decide
    omega
  by_cases hc : (spread = false ∧ hasPrefix typ "[]" = true ∧ typ ≠ "[]byte" ∧
        p.IsPGX v.SQLDriver = false)
  · have : Spec.paramEntry p v spread typ e = "pq.Array(" ++ e ++ ")" := by
      obtain ⟨h1, h2, h3, h4⟩ := hc
      simp [Spec.paramEntry, h1, h2, h3, h4]
    exact ⟨⟨fun _ => hc, fun _ => this⟩, fun h => absurd hc h⟩
  · have : Spec.paramEntry p v spread typ e = e := by
      unfold Spec.paramEntry
      rw [if_neg]
      intro h
      apply hc
      simpa [and_assoc] using h
    exact ⟨⟨fun h => absurd (this.symm.trans h) hne, fun h => absurd h hc⟩, fun _ => this⟩

/-- The entry rule of `Params` on the wrappers on which it does not panic: a
record-valued wrapper, or a scalar wrapper whose `Column` is set. There is one
entry per bound value, and the entry of a value with expression `e` is
`pq.Array(e)` exactly when the value is not a spread parameter, its type starts
with `[]` and is not `[]byte`, and the driver is not pgx; it is `e` otherwise. -/
theorem params_entry_rule (p : Pkg) (v : QueryValue) :
    (∀ s, v.Struct = some s →
      ∃ entries, v.Params_out p = .ok entries ∧ entries.length = s.Fields.length ∧
        entries = s.Fields.map (fun f =>
          Spec.paramEntry p v (p.HasSqlcSlice f) f.Type_ (p.escape (v.VariableForField p f)))) ∧
    (∀ c, v.Struct = none → v.Column = some c →
      v.Params_out p = .ok [Spec.paramEntry p v c.IsSqlcSlice v.Typ (p.escape v.Name)]) ∧
    (∀ spread typ e,
      (Spec.paramEntry p v spread typ e = "pq.Array(" ++ e ++ ")" ↔
        (spread = false ∧ hasPrefix typ "[]" = true ∧ typ ≠ "[]byte" ∧
          p.IsPGX v.SQLDriver = false)) ∧
      (¬ (spread = false ∧ hasPrefix typ "[]" = true ∧ typ ≠ "[]byte" ∧
          p.IsPGX v.SQLDriver = false) → Spec.paramEntry p v spread typ e = e)) := by
  refine ⟨?_, ?_, paramEntry_rule p v⟩
  · intro s hS
    exact ⟨_, params_out_record p v s hS, by simp, rfl⟩
  · intro c hS hC
    exact params_out_scalar p v c hS hC

theorem params_entry_rule_witness :
    Sample.scalarArg.Params_out Sample.pkg =
      .ok [Spec.paramEntry Sample.pkg Sample.scalarArg false "[]string" "tags"] ∧
    Sample.scalarArg.Params Sample.pkg = .ok "pq.Array(tags)" :=
  ⟨(params_entry_rule Sample.pkg Sample.scalarArg).2.1 ⟨false, "tags"⟩ rfl rfl, rfl⟩

/-! ## Scan destinations, one per column -/

theorem fieldScanEntries_length (p : Pkg) (v : QueryValue) (flag : Bool) (f : Field) :
    (Spec.fieldScanEntries p v flag f).length = Spec.columnCount f := by
  unfold Spec.fieldScanEntries Spec.columnCount Spec.isNullableEmbed
  by_cases hE : f.EmbedFields.length > 0
  · by_cases hN : (f.EmbedIsNullable && flag) = true
    · simp [hE, hN, Bool.and_assoc]
    · simp only [Bool.not_eq_true] at hN
      simp [hE, hN, Bool.and_assoc]
  · simp [hE]

/-- C8. The scan destinations of a record-valued wrapper are the destinations
of its fields, field after field: an embed contributes one destination per
embedded field, in the order of `EmbedFields`, a plain field contributes one.
Their number is the sum of these counts and is the same for both values of the
flag. A scalar wrapper has exactly one destination. -/
theorem scan_destinations_per_column (p : Pkg) (v : QueryValue) :
    (∀ s, v.Struct = some s → ∀ flag,
      v.ScanWithOptions_out p flag = s.Fields.flatMap (Spec.fieldScanEntries p v flag) ∧
      (v.ScanWithOptions_out p flag).length =
        (s.Fields.map (fun f =>
          if f.EmbedFields.length > 0 then f.EmbedFields.length else 1)).sum ∧
      (∀ f, (Spec.fieldScanEntries p v flag f).length =
        if f.EmbedFields.length > 0 then f.EmbedFields.length else 1) ∧
      (∀ f, f.EmbedFields.length > 0 →
        Spec.fieldScanEntries p v flag f = f.EmbedFields.map (fun e =>
          Spec.scanDest p v e.Type_
            (if (f.EmbedIsNullable && flag) = true then v.Name ++ "Embed" ++ f.Name ++ e.Name
             else v.Name ++ "." ++ f.Name ++ "." ++ e.Name)))) ∧
    (∀ s, v.Struct = some s →
      (v.ScanWithOptions_out p true).length = (v.ScanWithOptions_out p false).length) ∧
    (v.Struct = none → ∀ flag, (v.ScanWithOptions_out p flag).length = 1) := by
  have hlen : ∀ s, v.Struct = some s → ∀ flag, (v.ScanWithOptions_out p flag).length =
      (s.Fields.map (fun f =>
        if f.EmbedFields.length > 0 then f.EmbedFields.length else 1)).sum := by
    intro s hS flag
    rw [scan_out_record p v s hS flag, List.length_flatMap]
    congr 1
    apply List.map_congr_left
    intro f _
    exact fieldScanEntries_length p v flag f
  refine ⟨?_, ?_, ?_⟩
  · intro s hS flag
    refine ⟨scan_out_record p v s hS flag, hlen s hS flag,
      fieldScanEntries_length p v flag, ?_⟩
    intro f hE
    unfold Spec.fieldScanEntries Spec.isNullableEmbed Spec.tempName
    by_cases hN : (f.EmbedIsNullable && flag) = true
    · simp [hE, hN, Bool.and_assoc]
    · simp only [Bool.not_eq_true] at hN
      simp [hE, hN, Bool.and_assoc]
  · intro s hS
    rw [hlen s hS true, hlen s hS false]
  · intro hS flag
    rw [scan_out_scalar p v hS flag]
    rfl

theorem scan_destinations_per_column_witness :
    Sample.joinRow.ScanWithOptions_out Sample.pkg true =
      ["&i.Title", "&iEmbedAuthorID", "&iEmbedAuthorName"] ∧
    (Sample.joinRow.ScanWithOptions_out Sample.pkg false).length = 1 + 2 ∧
    (Sample.scalarNoColumn.ScanWithOptions_out Sample.pkg true).length = 1 :=
  ⟨((scan_destinations_per_column Sample.pkg Sample.joinRow).1 _ rfl true).1,
   ((scan_destinations_per_column Sample.pkg Sample.joinRow).1 _ rfl false).2.1,
   (scan_destinations_per_column Sample.pkg Sample.scalarNoColumn).2.2 rfl true⟩

/-! ## Temporaries of nullable embeds -/

theorem tempVars_eq (v : QueryValue) (s : Struct) (hS : v.Struct = some s) :
    v.NullableEmbedTempVars =
      (Spec.temporaries v s).map (fun t => "var " ++ t.1 ++ " " ++ makeNullableType t.2) := by
  unfold QueryValue.NullableEmbedTempVars Spec.temporaries
  rw [hS]
  simp only []
  rw [foldl_append_flatMap _ (fun f => if Spec.isNullableEmbed f = true then
      f.EmbedFields.map (fun e =>
        "var " ++ (v.Name ++ "Embed" ++ f.Name ++ e.Name) ++ " " ++ makeNullableType e.Type_)
    else [])]
  · generalize s.Fields = l
    induction l with
    | nil => rfl
    | cons f l ih =>
      by_cases hN : Spec.isNullableEmbed f = true
      · simp only [List.flatMap_cons, List.nil_append, hN, if_true, List.filter_cons_of_pos,
          List.map_append, List.map_map] at ih ⊢
        rw [ih]
        rfl
      · simp only [List.flatMap_cons, List.nil_append, hN, if_false, List.nil_append] at ih ⊢
        rw [ih, List.filter_cons_of_neg hN]
        simp
  · intro out f
    unfold Spec.isNullableEmbed
    split
    · rw [foldl_append_singleton]
      simp only [String.append_assoc]
    · simp

theorem nullable_scan_entries (p : Pkg) (v : QueryValue) (s : Struct) :
    (s.Fields.filter Spec.isNullableEmbed).flatMap (Spec.fieldScanEntries p v true) =
      (Spec.temporaries v s).map (fun t => Spec.scanDest p v t.2 t.1) := by
  unfold Spec.temporaries
  generalize s.Fields = l
  induction l with
  | nil => rfl
  | cons f l ih =>
    by_cases hN : Spec.isNullableEmbed f = true
    · simp only [List.filter_cons_of_pos hN, List.flatMap_cons, List.map_append, List.map_map]
      rw [ih]
      congr 1
      simp [Spec.fieldScanEntries, hN, Spec.tempName]
    · rw [List.filter_cons_of_neg hN]
      exact ih

theorem temp_ne_path (n a b : String) :
    "&" ++ (n ++ ("Embed" ++ a)) ≠ "&" ++ (n ++ ("." ++ b)) ∧
    "&" ++ (n ++ ("Embed" ++ a)) ≠ "pq.Array(&" ++ (n ++ ("." ++ b)) ∧
    "pq.Array(&" ++ (n ++ ("Embed" ++ a)) ≠ "&" ++ (n ++ ("." ++ b)) ∧
    "pq.Array(&" ++ (n ++ ("Embed" ++ a)) ≠ "pq.Array(&" ++ (n ++ ("." ++ b)) := by
  refine ⟨?_, ?_, ?_, ?_⟩ <;> intro h <;> have hd := congrArg String.data h <;>
    simp [String.data_append] at hd

theorem scanDest_forms (p : Pkg) (v : QueryValue) (typ target : String) :
    Spec.scanDest p v typ target = "&" ++ target ∨
    Spec.scanDest p v typ target = "pq.Array(&" ++ target ++ ")" := by
  unfold Spec.scanDest
  split
  · exact Or.inr rfl
  · exact Or.inl rfl

/-- C9. For a record-valued wrapper let the temporaries be the names
`v.Name ++ "Embed" ++ f.Name ++ embed.Name` (with the type of `embed`) over
the nullable embeds `f` in field order and their embedded fields in order.
`NullableEmbedTempVars` returns one line per temporary, `var T_k` followed by
the nullable counterpart of the type; the destinations that
`ScanWithOptions(true)` produces for the nullable embeds are one per
temporary, `&T_k` or `pq.Array(&T_k)`; none of them addresses a path
`v.Name.a.b` through the parent value. -/
theorem temporaries_scanned_are_declared (p : Pkg) (v : QueryValue) (s : Struct)
    (hS : v.Struct = some s) :
    v.NullableEmbedTempVars =
      (Spec.temporaries v s).map (fun t => "var " ++ t.1 ++ " " ++ makeNullableType t.2) ∧
    v.NullableEmbedTempVars.length = (Spec.temporaries v s).length ∧
    v.ScanWithOptions_out p true = s.Fields.flatMap (Spec.fieldScanEntries p v true) ∧
    (s.Fields.filter Spec.isNullableEmbed).flatMap (Spec.fieldScanEntries p v true) =
      (Spec.temporaries v s).map (fun t => Spec.scanDest p v t.2 t.1) ∧
    ((s.Fields.filter Spec.isNullableEmbed).flatMap (Spec.fieldScanEntries p v true)).length =
      (Spec.temporaries v s).length ∧
    (∀ typ target, Spec.scanDest p v typ target = "&" ++ target ∨
      Spec.scanDest p v typ target = "pq.Array(&" ++ target ++ ")") ∧
    (∀ f ∈ s.Fields, Spec.isNullableEmbed f = true →
      ∀ x ∈ Spec.fieldScanEntries p v true f, ∀ a b : String,
        x ≠ "&" ++ v.Name ++ "." ++ a ++ "." ++ b ∧
        x ≠ "pq.Array(&" ++ v.Name ++ "." ++ a ++ "." ++ b ++ ")") := by
  refine ⟨tempVars_eq v s hS, ?_, scan_out_record p v s hS true, nullable_scan_entries p v s,
    ?_, scanDest_forms p v, ?_⟩
  · rw [tempVars_eq v s hS, List.length_map]
  · rw [nullable_scan_entries p v s, List.length_map]
  · intro f _ hN x hx a b
    simp only [Spec.fieldScanEntries, hN, Bool.and_self, if_true, List.mem_map] at hx
    obtain ⟨e, -, rfl⟩ := hx
    have h1 := (temp_ne_path v.Name (f.Name ++ e.Name) (a ++ ("." ++ b))).1
    have h2 := (temp_ne_path v.Name (f.Name ++ e.Name) (a ++ ("." ++ (b ++ ")")))).2.1
    have h3 := (temp_ne_path v.Name (f.Name ++ (e.Name ++ ")")) (a ++ ("." ++ b))).2.2.1
    have h4 :=
      (temp_ne_path v.Name (f.Name ++ (e.Name ++ ")")) (a ++ ("." ++ (b ++ ")")))).2.2.2
    rcases scanDest_forms p v e.Type_ (Spec.tempName v f e) with h | h
    · rw [h]
      simp only [Spec.tempName, String.append_assoc]
      exact ⟨h1, h2⟩
    · rw [h]
      simp only [Spec.tempName, String.append_assoc]
      exact ⟨h3, h4⟩

theorem temporaries_scanned_are_declared_witness :
    Sample.joinRow.NullableEmbedTempVars =
      [("iEmbedAuthorID", "int32"), ("iEmbedAuthorName", "string")].map
        (fun t => "var " ++ t.1 ++ " " ++ makeNullableType t.2) ∧
    Sample.joinRow.ScanWithOptions_out Sample.pkg true =
      ["&i.Title", "&iEmbedAuthorID", "&iEmbedAuthorName"] :=
  ⟨(temporaries_scanned_are_declared Sample.pkg Sample.joinRow _ rfl).1,
   (temporaries_scanned_are_declared Sample.pkg Sample.joinRow _ rfl).2.2.1⟩

/-! ## Integer widths -/

/-- C11, counterexample. The types `int8` and `int16` are not in the table of
`makeNullableType`: they are returned unchanged and are no `sql.NullInt`
wrapper. -/
theorem integer_widths_counterexample :
    makeNullableType "int8" = "int8" ∧
    makeNullableType "int16" = "int16" ∧
    hasPrefix (makeNullableType "int8") "sql.NullInt" = false ∧
    hasPrefix (makeNullableType "int16") "sql.NullInt" = false := by
  decide

/-- C11, amended. For `int`, `int32` and `int64` the result of
`makeNullableType` starts with `sql.NullInt` and differs from the type: `int`
and `int32` give `sql.NullInt32`, `int64` gives `sql.NullInt64`. The types
`int8` and `int16` are not in the table and are returned unchanged. -/
theorem integer_widths (t : String) (h : t ∈ ["int", "int32", "int64"]) :
    hasPrefix (makeNullableType t) "sql.NullInt" = true ∧
    makeNullableType t ≠ t ∧
    (t = "int" ∨ t = "int32" → makeNullableType t = "sql.NullInt32") ∧
    (t = "int64" → makeNullableType t = "sql.NullInt64") ∧
    makeNullableType "int8" = "int8" ∧
    makeNullableType "int16" = "int16" := by
  simp only [List.mem_cons, List.mem_singleton, List.not_mem_nil, or_false] at h
  rcases h with h | h | h <;> subst h <;> decide

theorem integer_widths_witness :
    hasPrefix (makeNullableType "int64") "sql.NullInt" = true ∧
    makeNullableType "int64" ≠ "int64" :=
  ⟨(integer_widths "int64" (by decide)).1, (integer_widths "int64" (by decide)).2.1⟩

/-- C12, failing input. For the declared type `int` the temporary is a
`sql.NullInt32`, whose payload `Int32` has type `int32`; the extraction is the
conversion `int32(x.Int32)`, an expression of type `int32`: it is neither the
conversion to `int` nor the bare payload. -/
theorem extract_int_is_int32 (x : String) :
    makeNullableType "int" = "sql.NullInt32" ∧
    extractNullableValue x "int" = "int32(" ++ x ++ ".Int32)" ∧
    extractNullableValue x "int" ≠ "int" ++ "(" ++ x ++ "." ++ "Int32" ++ ")" ∧
    extractNullableValue x "int" ≠ x ++ "." ++ "Int32" := by
  have hval : extractNullableValue x "int" = "int32(" ++ x ++ ".Int32)" := rfl
  refine ⟨by decide, hval, ?_, ?_⟩
  · rw [hval]
    intro h
    have hd := congrArg String.data h
    simp [String.data_append] at hd
  · rw [hval]
    intro h
    have hl := congrArg String.length h
    simp only [String.length_append] at hl
    have h1 : "int32(".length = 6 := by decide
    have h2 : ".Int32)".length = 7 := by decide
    have h3 : ".".length = 1 := by decide
    have h4 : "Int32".length = 5 := by decide
    omega

/-- The extraction for the declared types `int32` and `int64`: the conversion
of the payload to `int32`, and the bare payload `Int64`. -/
theorem extract_int32_int64 (x : String) :
    extractNullableValue x "int32" = "int32" ++ "(" ++ x ++ "." ++ "Int32" ++ ")" ∧
    extractNullableValue x "int64" = x ++ "." ++ "Int64" := by
  constructor
  · show "int32(" ++ x ++ ".Int32)" = _
    apply String.ext
    simp [String.data_append]
  · show x ++ ".Int64" = _
    apply String.ext
    simp [String.data_append]

/-! ## Declaration and extraction treat the same types -/

theorem extractNullableValue_other (x t : String)
    (h : t ∉ ["string", "int", "int32", "int64", "float32", "float64", "bool", "time.Time"]) :
    extractNullableValue x t = x := by
  simp only [List.mem_cons, List.mem_singleton, List.not_mem_nil, or_false, not_or] at h
  unfold extractNullableValue
  split <;> simp_all

theorem append_ne_self (x suffix : String) (h : 0 < suffix.length) : x ++ suffix ≠ x := by
  intro heq
  have hl := congrArg String.length heq
  simp only [String.length_append] at hl
  omega

theorem wrap_ne_self (pre x suffix : String) (h : 0 < pre.length) :
    pre ++ x ++ suffix ≠ x := by
  intro heq
  have hl := congrArg String.length heq
  simp only [String.length_append] at hl
  omega

/-- C19. For every type `t` and every variable name `x`, `makeNullableType`
leaves `t` unchanged exactly when `extractNullableValue` returns the bare
variable `x`: a payload is extracted for the types whose temporary has a
`sql.Null*` wrapper type, and for no other type. -/
theorem declaration_extraction_agree (t x : String) :
    makeNullableType t = t ↔ extractNullableValue x t = x := by
  by_cases h : t ∈ ["string", "int", "int32", "int64", "float32", "float64", "bool", "time.Time"]
  · simp only [List.mem_cons, List.mem_singleton, List.not_mem_nil, or_false] at h
    have hm : makeNullableType t ≠ t := by
      rcases h with h | h | h | h | h | h | h | h <;> subst h <;> decide
    have he : extractNullableValue x t ≠ x := by
      rcases h with h | h | h | h | h | h | h | h <;> subst h
      · exact append_ne_self x ".String" (by decide)
      · exact wrap_ne_self "int32(" x ".Int32)" (by decide)
      · exact wrap_ne_self "int32(" x ".Int32)" (by decide)
      · exact append_ne_self x ".Int64" (by decide)
      · exact wrap_ne_self "float32(" x ".Float64)" (by decide)
      · exact append_ne_self x ".Float64" (by decide)
      · exact append_ne_self x ".Bool" (by decide)
      · exact append_ne_self x ".Time" (by decide)
    exact ⟨fun hh => absurd hh hm, fun hh => absurd hh he⟩
  · exact ⟨fun _ => extractNullableValue_other x t h, fun _ => makeNullableType_other t h⟩

/-! ## Field deduplication -/

theorem uniqueFieldsLoop_acc (l : List Field) (seen : List String) (acc : List Field) :
    uniqueFieldsLoop l seen acc = acc ++ uniqueFieldsLoop l seen [] := by
  induction l generalizing seen acc with
  | nil => simp [uniqueFieldsLoop]
  | cons f r ih =>
    unfold uniqueFieldsLoop
    split
    · exact ih seen acc
    · rw [ih (f.Name :: seen) (acc ++ [f]), ih (f.Name :: seen) ([] ++ [f])]
      simp

theorem uniqueFieldsLoop_seen (f : Field) (r : List Field) (seen : List String)
    (h : f.Name ∈ seen) :
    uniqueFieldsLoop (f :: r) seen [] = uniqueFieldsLoop r seen [] := by
  simp [uniqueFieldsLoop, h]

theorem uniqueFieldsLoop_fresh (f : Field) (r : List Field) (seen : List String)
    (h : f.Name ∉ seen) :
    uniqueFieldsLoop (f :: r) seen [] = f :: uniqueFieldsLoop r (f.Name :: seen) [] := by
  have hacc := uniqueFieldsLoop_acc r (f.Name :: seen) [f]
  simp only [uniqueFieldsLoop, h, if_false, List.nil_append]
  rw [hacc]
  rfl

theorem uniqueFieldsLoop_sublist (l : List Field) (seen : List String) :
    (uniqueFieldsLoop l seen []).Sublist l := by
  induction l generalizing seen with
  | nil => simp [uniqueFieldsLoop]
  | cons f r ih =>
    by_cases h : f.Name ∈ seen
    · rw [uniqueFieldsLoop_seen f r seen h]
      exact List.Sublist.cons f (ih seen)
    · rw [uniqueFieldsLoop_fresh f r seen h]
      exact List.Sublist.cons₂ f (ih (f.Name :: seen))

theorem uniqueFieldsLoop_not_seen (l : List Field) (seen : List String) :
    ∀ g ∈ uniqueFieldsLoop l seen [], g.Name ∉ seen := by
  induction l generalizing seen with
  | nil => simp [uniqueFieldsLoop]
  | cons f r ih =>
    intro g hg
    by_cases h : f.Name ∈ seen
    · rw [uniqueFieldsLoop_seen f r seen h] at hg
      exact ih seen g hg
    · rw [uniqueFieldsLoop_fresh f r seen h] at hg
      rcases List.mem_cons.mp hg with rfl | hg
      · exact h
      · intro hmem
        exact ih (f.Name :: seen) g hg (List.mem_cons_of_mem _ hmem)

theorem uniqueFieldsLoop_nodup (l : List Field) (seen : List String) :
    ((uniqueFieldsLoop l seen []).map (fun f => f.Name)).Nodup := by
  induction l generalizing seen with
  | nil => simp [uniqueFieldsLoop]
  | cons f r ih =>
    by_cases h : f.Name ∈ seen
    · rw [uniqueFieldsLoop_seen f r seen h]
      exact ih seen
    · rw [uniqueFieldsLoop_fresh f r seen h, List.map_cons, List.nodup_cons]
      refine ⟨?_, ih (f.Name :: seen)⟩
      intro hmem
      obtain ⟨g, hg, hname⟩ := List.mem_map.mp hmem
      have := uniqueFieldsLoop_not_seen r (f.Name :: seen) g hg
      apply this
      rw [hname]
      exact List.mem_cons_self _ _

theorem uniqueFieldsLoop_covers (l : List Field) (seen : List String) :
    ∀ f ∈ l, f.Name ∈ seen ∨ f.Name ∈ (uniqueFieldsLoop l seen []).map (fun g => g.Name) := by
  induction l generalizing seen with
  | nil => simp
  | cons f r ih =>
    intro g hg
    by_cases h : f.Name ∈ seen
    · rw [uniqueFieldsLoop_seen f r seen h]
      rcases List.mem_cons.mp hg with rfl | hg
      · exact Or.inl h
      · exact ih seen g hg
    · rw [uniqueFieldsLoop_fresh f r seen h, List.map_cons]
      rcases List.mem_cons.mp hg with rfl | hg
      · exact Or.inr (List.mem_cons_self _ _)
      · rcases ih (f.Name :: seen) g hg with h1 | h1
        · rcases List.mem_cons.mp h1 with h2 | h2
          · exact Or.inr (by rw [h2]; exact List.mem_cons_self _ _)
          · exact Or.inl h2
        · exact Or.inr (List.mem_cons_of_mem _ h1)

theorem uniqueFieldsLoop_first (l : List Field) (seen : List String) :
    ∀ g ∈ uniqueFieldsLoop l seen [], l.find? (fun f => f.Name == g.Name) = some g := by
  induction l generalizing seen with
  | nil => simp [uniqueFieldsLoop]
  | cons f r ih =>
    intro g hg
    by_cases h : f.Name ∈ seen
    · rw [uniqueFieldsLoop_seen f r seen h] at hg
      have hne : f.Name ≠ g.Name := by
        intro heq
        exact uniqueFieldsLoop_not_seen r seen g hg (heq ▸ h)
      have hb : (f.Name == g.Name) = false := by simpa using hne
      rw [List.find?_cons, hb]
      exact ih seen g hg
    · rw [uniqueFieldsLoop_fresh f r seen h] at hg
      rcases List.mem_cons.mp hg with rfl | hg
      · simp [List.find?_cons]
      · have hne : f.Name ≠ g.Name := by
          intro heq
          exact uniqueFieldsLoop_not_seen r (f.Name :: seen) g hg
            (heq ▸ List.mem_cons_self _ _)
        have hb : (f.Name == g.Name) = false := by simpa using hne
        rw [List.find?_cons, hb]
        exact ih (f.Name :: seen) g hg

/-- C13. For a record-valued wrapper `UniqueFields` returns a subsequence of
`Struct.Fields` in which no two fields share a name, every name of
`Struct.Fields` occurs, and every field is the first field of `Struct.Fields`
with its name; four fields named A, B, A, C give the first, second and fourth
field. -/
theorem uniqueFields_contract (v : QueryValue) (s : Struct) (hS : v.Struct = some s) :
    ∃ result, v.UniqueFields = .ok result ∧
      result.Sublist s.Fields ∧
      (result.map (fun f => f.Name)).Nodup ∧
      (∀ f ∈ s.Fields, f.Name ∈ result.map (fun g => g.Name)) ∧
      (∀ g ∈ result, s.Fields.find? (fun f => f.Name == g.Name) = some g) ∧
      (∀ a b a2 c : Field, s.Fields = [a, b, a2, c] → a2.Name = a.Name → b.Name ≠ a.Name →
        c.Name ≠ a.Name → c.Name ≠ b.Name → result = [a, b, c]) := by
  refine ⟨uniqueFieldsLoop s.Fields [] [], ?_, uniqueFieldsLoop_sublist _ _,
    uniqueFieldsLoop_nodup _ _, ?_, uniqueFieldsLoop_first _ _, ?_⟩
  · simp [QueryValue.UniqueFields, hS]
  · intro f hf
    rcases uniqueFieldsLoop_covers s.Fields [] f hf with h | h
    · simp at h
    · exact h
  · intro a b a2 c hF h1 h2 h3 h4
    rw [hF]
    simp [uniqueFieldsLoop, h1, h2, h3, h4]

theorem uniqueFields_contract_witness :
    ∃ result, Sample.repeatedFields.UniqueFields = .ok result ∧
      result.map (fun f => f.Name) = ["A", "B", "C"] ∧
      result.map (fun f => f.Type_) = ["int32", "string", "bool"] := by
  obtain ⟨result, h1, -, -, -, -, h6⟩ := uniqueFields_contract Sample.repeatedFields _ rfl
  refine ⟨result, h1, ?_⟩
  rw [h6 _ _ _ _ rfl rfl (by decide) (by decide) (by decide)]
  exact ⟨rfl, rfl⟩

/-! ## Table identifiers -/

theorem foldl_append_filter {α β : Type} (c : α → Bool) (g : α → β) (l : List α)
    (init : List β) :
    l.foldl (fun out x => if c x = true then out ++ [g x] else out) init =
      init ++ (l.filter c).map g := by
  induction l generalizing init with
  | nil => simp
  | cons x xs ih =>
    simp only [List.foldl_cons]
    by_cases hc : c x = true
    · simp [hc, ih]
    · simp [hc, ih]

/-- C14. For a statement with a table, both emissions go over the non-empty
components among catalog, schema and name, in that order, hence over the same
number of components: `TableIdentifierForMySQL` wraps each in back-ticks and
joins them with a dot, `TableIdentifierAsGoSlice` quotes each, joins them with
a comma and a blank, and puts the list between `[]string` and braces. With an
empty catalog and non-empty schema and name there are two components, schema
then name. -/
theorem table_identifier_components (goQuote : String → String) (q : Query)
    (t : Identifier) (hT : q.Table = some t) :
    q.TableIdentifierForMySQL = .ok (stringsJoin
      (([t.Catalog, t.Schema, t.Name].filter (fun part => part != "")).map
        (fun part => "`" ++ part ++ "`")) ".") ∧
    q.TableIdentifierAsGoSlice goQuote = .ok ("[]string\x7b" ++ stringsJoin
      (([t.Catalog, t.Schema, t.Name].filter (fun part => part != "")).map goQuote) ", "
      ++ "\x7d") ∧
    ((([t.Catalog, t.Schema, t.Name].filter (fun part => part != "")).map
        (fun part => "`" ++ part ++ "`")).length =
      (([t.Catalog, t.Schema, t.Name].filter (fun part => part != "")).map goQuote).length) ∧
    (t.Catalog = "" → t.Schema ≠ "" → t.Name ≠ "" →
      [t.Catalog, t.Schema, t.Name].filter (fun part => part != "") = [t.Schema, t.Name] ∧
      q.TableIdentifierForMySQL = .ok ("`" ++ t.Schema ++ "`" ++ "." ++ "`" ++ t.Name ++ "`") ∧
      q.TableIdentifierAsGoSlice goQuote =
        .ok ("[]string\x7b" ++ goQuote t.Schema ++ ", " ++ goQuote t.Name ++ "\x7d")) := by
  have hM : q.TableIdentifierForMySQL = .ok (stringsJoin
      (([t.Catalog, t.Schema, t.Name].filter (fun part => part != "")).map
        (fun part => "`" ++ part ++ "`")) ".") := by
    unfold Query.TableIdentifierForMySQL
    rw [hT]
    simp only []
    rw [foldl_append_filter (fun part => part != "") (fun part => "`" ++ part ++ "`")]
    rfl
  have hG : q.TableIdentifierAsGoSlice goQuote = .ok ("[]string\x7b" ++ stringsJoin
      (([t.Catalog, t.Schema, t.Name].filter (fun part => part != "")).map goQuote) ", "
      ++ "\x7d") := by
    unfold Query.TableIdentifierAsGoSlice
    rw [hT]
    simp only []
    rw [foldl_append_filter (fun part => part != "") goQuote]
    rfl
  refine ⟨hM, hG, by simp, ?_⟩
  intro hC hSch hN
  have hfilter :
      [t.Catalog, t.Schema, t.Name].filter (fun part => part != "") = [t.Schema, t.Name] := by
    have h1 : (t.Schema != "") = true := by simpa using hSch
    have h2 : (t.Name != "") = true := by simpa using hN
    simp [List.filter, hC, h1, h2]
  refine ⟨hfilter, ?_, ?_⟩
  · rw [hM, hfilter]
    simp only [List.map_cons, List.map_nil, stringsJoin]
    congr 1
    apply String.ext
    simp [String.data_append]
  · rw [hG, hfilter]
    simp only [List.map_cons, List.map_nil, stringsJoin]
    apply congrArg
    apply String.ext
    simp only [String.data_append, List.append_assoc]

theorem table_identifier_components_witness :
    Sample.copyQuery.TableIdentifierForMySQL = .ok ("`" ++ "public" ++ "`" ++ "." ++ "`"
      ++ "authors" ++ "`") ∧
    Sample.copyQuery.TableIdentifierAsGoSlice Sample.goQuote =
      .ok ("[]string\x7b" ++ Sample.goQuote "public" ++ ", " ++ Sample.goQuote "authors"
        ++ "\x7d") :=
  ⟨((table_identifier_components Sample.goQuote Sample.copyQuery _ rfl).2.2.2 rfl
      (by decide) (by decide)).2.1,
   ((table_identifier_components Sample.goQuote Sample.copyQuery _ rfl).2.2.2 rfl
      (by decide) (by decide)).2.2⟩

/-! ## Column names -/

/-- C15, counterexample. A record with a field `ID` without column metadata
(database name `id`) and a field `UserID` (database name `user_id`) whose
column has the original name `user id`: for the first field both functions
give the database name `id`, not the declared name `ID`; for the second
`ColumnNames` gives `user_id`, not the original name. -/
theorem column_names_counterexample :
    Sample.copyArg.Struct = some ⟨"CopyParams", [Sample.keyField, Sample.renamedField]⟩ ∧
    Sample.keyField.Name = "ID" ∧ Sample.keyField.Column = none ∧
    Sample.renamedField.Column = some ⟨false, "user id"⟩ ∧
    Sample.copyArg.ColumnNames = ["id", "user_id"] ∧
    Sample.copyArg.ColumnNames ≠ ["ID", "user id"] ∧
    Sample.copyArg.ColumnNamesAsGoSlice Sample.goQuote =
      "[]string\x7b" ++ Sample.goQuote "id" ++ ", " ++ Sample.goQuote "user id" ++ "\x7d" ∧
    Sample.copyArg.ColumnNamesAsGoSlice Sample.goQuote ≠
      "[]string\x7b" ++ Sample.goQuote "ID" ++ ", " ++ Sample.goQuote "user id" ++ "\x7d" := by
  refine ⟨rfl, rfl, rfl, rfl, rfl, by decide, rfl, by decide⟩

/-- C15, amended. For a scalar wrapper both functions hold the single name
`v.DBName`. For a record-valued wrapper both hold one name per field of the
Struct, in field order; in `ColumnNamesAsGoSlice` the name of a field is the
original name of its column when the column metadata is present and the
original name is not empty, and the field's `DBName` otherwise; in
`ColumnNames` the name of a field whose column metadata is absent or has an
empty original name is the field's `DBName`. -/
theorem column_names (goQuote : String → String) (v : QueryValue) :
    (v.Struct = none →
      v.ColumnNames = [v.DBName] ∧
      v.ColumnNamesAsGoSlice goQuote = "[]string\x7b" ++ goQuote v.DBName ++ "\x7d") ∧
    (∀ s, v.Struct = some s →
      v.ColumnNames.length = s.Fields.length ∧
      v.ColumnNamesAsGoSlice goQuote = "[]string\x7b" ++ stringsJoin
        (s.Fields.map (fun f => goQuote (Spec.backingName f))) ", " ++ "\x7d" ∧
      (s.Fields.map (fun f => goQuote (Spec.backingName f))).length = s.Fields.length ∧
      (∀ i (hi : i < s.Fields.length),
        (∀ c, s.Fields[i].Column = some c → c.OriginalName ≠ "" →
          Spec.backingName s.Fields[i] = c.OriginalName) ∧
        ((s.Fields[i].Column = none ∨ ∃ c, s.Fields[i].Column = some c ∧ c.OriginalName = "") →
          Spec.backingName s.Fields[i] = s.Fields[i].DBName ∧
          v.ColumnNames[i]? = some s.Fields[i].DBName))) := by
  refine ⟨?_, ?_⟩
  · intro hS
    simp [QueryValue.ColumnNames, QueryValue.ColumnNamesAsGoSlice, hS]
  · intro s hS
    refine ⟨by simp [QueryValue.ColumnNames, hS], ?_, by simp, ?_⟩
    · unfold QueryValue.ColumnNamesAsGoSlice
      rw [hS]
      simp only []
      congr 3
      apply List.map_congr_left
      intro f _
      unfold Spec.backingName
      cases hc : f.Column with
      | none => rfl
      | some c =>
        by_cases ho : c.OriginalName = "" <;> simp [ho]
    · intro i hi
      refine ⟨?_, ?_⟩
      · intro c hc ho
        simp [Spec.backingName, hc, ho]
      · intro h
        refine ⟨?_, ?_⟩
        · rcases h with h | ⟨c, hc, ho⟩
          · simp [Spec.backingName, h]
          · simp [Spec.backingName, hc, ho]
        · simp [QueryValue.ColumnNames, hS, hi]

theorem column_names_witness :
    Sample.copyArg.ColumnNames.length = 2 ∧
    Sample.copyArg.ColumnNamesAsGoSlice Sample.goQuote = "[]string\x7b" ++ stringsJoin
      ([Sample.keyField, Sample.renamedField].map
        (fun f => Sample.goQuote (Spec.backingName f))) ", " ++ "\x7d" ∧
    Sample.scalarArg.ColumnNames = ["tags"] :=
  ⟨((column_names Sample.goQuote Sample.copyArg).2 _ rfl).1,
   ((column_names Sample.goQuote Sample.copyArg).2 _ rfl).2.1,
   ((column_names Sample.goQuote Sample.scalarArg).1 rfl).1⟩

/-! ## Reference markers -/

/-- C16. On a wrapper on which `Type()` succeeds, `DefineType()` is `Type()`
with a leading `*` when `EmitPointer` is set and a Struct is held, and
`Type()` itself otherwise; `IsPointer()` is false on every scalar wrapper;
`ReturnName()` is the escaped name with a leading `&` exactly when
`DefineType()` is `Type()` with a leading `*`. -/
theorem defineType_isPointer (p : Pkg) (v : QueryValue) (t : String)
    (hT : v.Type_ = .ok t) :
    (v.EmitPointer = true ∧ v.Struct ≠ none → v.DefineType = .ok ("*" ++ t)) ∧
    (¬ (v.EmitPointer = true ∧ v.Struct ≠ none) → v.DefineType = .ok t) ∧
    (v.Struct = none → v.IsPointer = false) ∧
    (v.ReturnName p = "&" ++ p.escape v.Name ↔ v.DefineType = .ok ("*" ++ t)) := by
  have hptr : v.IsPointer = true ↔ (v.EmitPointer = true ∧ v.Struct ≠ none) := by
    cases hS : v.Struct <;> simp [QueryValue.IsPointer, hS]
  have hstar : t ≠ "*" ++ t := by
    intro h
    have hl := congrArg String.length h
    simp only [String.length_append] at hl
    have : "*".length = 1 := by decide
    omega
  have hamp : p.escape v.Name ≠ "&" ++ p.escape v.Name := by
    intro h
    have hl := congrArg String.length h
    simp only [String.length_append] at hl
    have : "&".length = 1 := by decide
    omega
  refine ⟨?_, ?_, ?_, ?_⟩
  · intro h
    simp [QueryValue.DefineType, hT, hptr.mpr h]
  · intro h
    have : v.IsPointer = false := by
      cases hp : v.IsPointer
      · rfl
      · exact absurd (hptr.mp hp) h
    simp [QueryValue.DefineType, hT, this]
  · intro hS
    simp [QueryValue.IsPointer, hS]
  · cases hp : v.IsPointer
    · simp only [QueryValue.ReturnName, QueryValue.DefineType, hT, hp, Bool.false_eq_true,
        if_false]
      constructor
      · intro h
        exact absurd h hamp
      · intro h
        exact absurd (Except.ok.inj h) hstar
    · simp [QueryValue.ReturnName, QueryValue.DefineType, hT, hp]

theorem defineType_isPointer_witness :
    Sample.recordArg.DefineType = .ok ("*" ++ "GetAuthorParams") ∧
    Sample.scalarArg.IsPointer = false ∧
    Sample.recordArg.ReturnName Sample.pkg = "&" ++ "arg" :=
  ⟨(defineType_isPointer Sample.pkg Sample.recordArg _ rfl).1
    ⟨rfl, by simp [Sample.recordArg]⟩,
   (defineType_isPointer Sample.pkg Sample.scalarArg _ rfl).2.2.1 rfl,
   (defineType_isPointer Sample.pkg Sample.recordArg _ rfl).2.2.2.mpr
     ((defineType_isPointer Sample.pkg Sample.recordArg _ rfl).1
    ⟨rfl, by simp [Sample.recordArg]⟩)⟩

/-! ## Shape of the assignment block -/

theorem sqlNull_form (t : String) (hp : hasPrefix t "sql.Null[" = true)
    (hs : hasSuffix t "]" = true) : ∃ inner : String, t = "sql.Null[" ++ inner ++ "]" := by
  unfold hasPrefix at hp
  unfold hasSuffix at hs
  rw [List.isPrefixOf_iff_prefix] at hp
  rw [List.isSuffixOf_iff_suffix] at hs
  obtain ⟨r, hr⟩ := hp
  obtain ⟨u, hu⟩ := hs
  have hlast : t.data.getLast? = some ']' := by
    rw [← hu]
    simp
  rw [← hr] at hlast
  cases hR : r.getLast? with
  | none =>
    have hnil : r = [] := List.getLast?_eq_none_iff.mp hR
    rw [hnil] at hlast
    simp at hlast
  | some c =>
    obtain ⟨front, hfront⟩ := List.getLast?_eq_some_iff.mp hR
    rw [List.getLast?_append, hR] at hlast
    have hc : c = ']' := by
      simpa [Option.or] using hlast
    refine ⟨⟨front⟩, ?_⟩
    apply String.ext
    rw [← hr, hfront, hc]
    simp [String.data_append]

theorem structTypeText_inner (f : Field) (inner : String)
    (h : f.Type_ = "sql.Null[" ++ inner ++ "]") : Spec.structTypeText f = inner := by
  have hp : hasPrefix f.Type_ "sql.Null[" = true := by
    unfold hasPrefix
    rw [List.isPrefixOf_iff_prefix, h]
    exact ⟨inner.data ++ "]".data, by simp [String.data_append]⟩
  have hs : hasSuffix f.Type_ "]" = true := by
    unfold hasSuffix
    rw [List.isSuffixOf_iff_suffix, h]
    exact ⟨"sql.Null[".data ++ inner.data, by simp [String.data_append]⟩
  have hmk : f.Type_ = ⟨"sql.Null[".data ++ inner.data ++ "]".data⟩ := by
    rw [h]
    apply String.ext
    simp [String.data_append]
  have h9 : String.utf8Len "sql.Null[".data = 9 := by decide
  have h1 : String.utf8Len "]".data = 1 := by decide
  have hsize : f.Type_.utf8ByteSize = 9 + String.utf8Len inner.data + 1 := by
    rw [hmk, String.utf8ByteSize_mk, String.utf8Len_append, String.utf8Len_append, h9, h1]
  have hex := String.extract_of_valid "sql.Null[".data inner.data "]".data
  rw [h9] at hex
  unfold Spec.structTypeText structTypeOf sliceString
  rw [hp, hs, hsize]
  simp only [Bool.and_self, if_true]
  rw [if_pos (by omega)]
  simp only [Nat.add_sub_cancel]
  rw [hmk, hex]

theorem structTypeText_other (f : Field)
    (h : ¬ ∃ inner : String, f.Type_ = "sql.Null[" ++ inner ++ "]") :
    Spec.structTypeText f = f.Type_ := by
  have hc : ¬ ((hasPrefix f.Type_ "sql.Null[" && hasSuffix f.Type_ "]") = true) := by
    intro hc
    simp only [Bool.and_eq_true] at hc
    exact h (sqlNull_form f.Type_ hc.1 hc.2)
  unfold Spec.structTypeText structTypeOf
  rw [if_neg hc]

/-- C17. For a record-valued wrapper whose nullable embeds all have a primary
key, `NullableEmbedAssignments` returns, for each nullable embed with `n`
embedded fields and in field order, `n + 5` lines: the guard, the presence
mark, the opening of the record of type `S`, one line per embedded field with
the value extracted from its temporary, and two closing lines. `S` is the
inner type when the field's type is `sql.Null[` inner `]` and the field's type
otherwise; the extraction of the inner type is never out of range. Other
fields contribute no line. -/
theorem assignment_block_shape (v : QueryValue) (s : Struct) (hS : v.Struct = some s)
    (hK : ∀ f ∈ s.Fields, f.EmbedFields.length > 0 → f.EmbedIsNullable = true →
      f.EmbedPrimaryKeys ≠ []) :
    v.NullableEmbedAssignments =
      .ok ((s.Fields.filter (fun f => decide (f.EmbedFields.length > 0) && f.EmbedIsNullable)).flatMap
        (Spec.assignmentBlock v)) ∧
    (∀ f, (Spec.assignmentBlock v f).length = f.EmbedFields.length + 5) ∧
    (∀ f, Spec.assignmentBlock v f =
      ["if " ++ stringsJoin
          (f.EmbedPrimaryKeys.map (fun pk => v.Name ++ "Embed" ++ f.Name ++ pk.Name ++ ".Valid"))
          " || " ++ " \x7b",
        "    " ++ v.Name ++ "." ++ f.Name ++ ".Valid = true",
        "    " ++ v.Name ++ "." ++ f.Name ++ ".V = " ++ Spec.structTypeText f ++ "\x7b"]
      ++ f.EmbedFields.map (fun e => "        " ++ e.Name ++ ": "
          ++ extractNullableValue (v.Name ++ "Embed" ++ f.Name ++ e.Name) e.Type_ ++ ",")
      ++ ["    \x7d", "\x7d"]) ∧
    (∀ f, structTypeOf f = .ok (Spec.structTypeText f)) ∧
    (∀ f inner, f.Type_ = "sql.Null[" ++ inner ++ "]" → Spec.structTypeText f = inner) ∧
    (∀ f, (¬ ∃ inner : String, f.Type_ = "sql.Null[" ++ inner ++ "]") →
      Spec.structTypeText f = f.Type_) := by
  refine ⟨?_, ?_, ?_, structTypeOf_eq, structTypeText_inner, structTypeText_other⟩
  · unfold QueryValue.NullableEmbedAssignments
    rw [hS]
    simp only []
    rw [assignmentsLoop_ok v s.Fields []]
    · rfl
    · intro f hf
      by_contra hb
      simp only [Bool.not_eq_false] at hb
      obtain ⟨h1, h2, h3⟩ := (lacksPrimaryKey_iff f).mp hb
      exact hK f hf (List.length_pos.mpr h1) h2 h3
  · intro f
    simp [Spec.assignmentBlock]
  · intro f
    rfl

theorem assignment_block_shape_witness :
    Sample.joinRow.NullableEmbedAssignments = .ok (Spec.assignmentBlock Sample.joinRow
      Sample.authorEmbed) ∧
    (Spec.assignmentBlock Sample.joinRow Sample.authorEmbed).length = 2 + 5 ∧
    Spec.structTypeText Sample.authorEmbed = "Author" := by
  have hK : ∀ f ∈ [Sample.plainField "Title" "string", Sample.authorEmbed],
      f.EmbedFields.length > 0 → f.EmbedIsNullable = true → f.EmbedPrimaryKeys ≠ [] := by
    intro f hf
    simp only [List.mem_cons, List.mem_singleton, List.not_mem_nil, or_false] at hf
    rcases hf with rfl | rfl
    · intro h
      simp [Sample.plainField] at h
    · intro _ _
      simp [Sample.authorEmbed]
  exact ⟨(assignment_block_shape Sample.joinRow _ rfl hK).1,
    (assignment_block_shape Sample.joinRow _ rfl hK).2.1 Sample.authorEmbed,
    (assignment_block_shape Sample.joinRow _ rfl hK).2.2.2.2.1 Sample.authorEmbed "Author" rfl⟩

/-! ## Nullable-embed support is inert without nullable embeds -/

theorem hasNullableEmbed_false_iff (v : QueryValue) :
    v.HasNullableEmbed true = false ↔
      (v.Struct = none ∨
        ∃ s, v.Struct = some s ∧ ∀ f ∈ s.Fields, Spec.isNullableEmbed f = false) := by
  unfold QueryValue.HasNullableEmbed Spec.isNullableEmbed
  cases hS : v.Struct with
  | none => simp
  | some s =>
    simp only [Bool.not_true, Option.isNone_some, Bool.or_self, Bool.false_eq_true, if_false,
      List.any_eq_false, Option.some.injEq, exists_eq_left']
    constructor
    · intro h
      refine Or.inr (fun f hf => ?_)
      simpa using h f hf
    · intro h f hf
      rcases h with h | h
      · cases h
      · simpa using h f hf

theorem fieldScanEntries_plain (p : Pkg) (v : QueryValue) (f : Field)
    (h : Spec.isNullableEmbed f = false) :
    Spec.fieldScanEntries p v true f = Spec.fieldScanEntries p v false f := by
  simp [Spec.fieldScanEntries, h]

theorem scan_out_inert (p : Pkg) (v : QueryValue)
    (h : v.HasNullableEmbed true = false) :
    v.ScanWithOptions_out p true = v.ScanWithOptions_out p false := by
  rcases (hasNullableEmbed_false_iff v).mp h with hS | ⟨s, hS, hf⟩
  · rw [scan_out_scalar p v hS true, scan_out_scalar p v hS false]
  · rw [scan_out_record p v s hS true, scan_out_record p v s hS false]
    apply List.flatMap_congr
    intro f hmem
    exact fieldScanEntries_plain p v f (hf f hmem)

/-- C18. `Scan()` is `ScanWithOptions(false)`. On a wrapper without nullable
embed (a scalar, or a record none of whose fields has embedded fields and is
marked nullable) `NullableEmbedTempVars` and `NullableEmbedAssignments` return
no line, without panic, and `ScanWithOptions(true)` is
`ScanWithOptions(false)`. When `HasNullableEmbed(true)` holds,
`NullableEmbedTempVars` is not empty. -/
theorem nullable_embed_inert (p : Pkg) (v : QueryValue) :
    v.Scan p = v.ScanWithOptions p false ∧
    (v.HasNullableEmbed true = false ↔
      (v.Struct = none ∨ ∃ s, v.Struct = some s ∧
        ∀ f ∈ s.Fields, ¬ (f.EmbedFields.length > 0 ∧ f.EmbedIsNullable = true))) ∧
    (v.HasNullableEmbed true = false →
      v.NullableEmbedTempVars = [] ∧
      v.NullableEmbedAssignments = .ok [] ∧
      v.ScanWithOptions p true = v.ScanWithOptions p false) ∧
    (v.HasNullableEmbed true = true → v.NullableEmbedTempVars ≠ []) := by
  refine ⟨rfl, ?_, ?_, ?_⟩
  · rw [hasNullableEmbed_false_iff]
    simp [Spec.isNullableEmbed]
  · intro h
    refine ⟨?_, ?_, ?_⟩
    · rcases (hasNullableEmbed_false_iff v).mp h with hS | ⟨s, hS, hf⟩
      · simp [QueryValue.NullableEmbedTempVars, hS]
      · rw [tempVars_eq v s hS]
        have hfilter : s.Fields.filter Spec.isNullableEmbed = [] := by
          rw [List.filter_eq_nil_iff]
          intro f hmem
          simp [hf f hmem]
        simp [Spec.temporaries, hfilter]
    · rcases (hasNullableEmbed_false_iff v).mp h with hS | ⟨s, hS, hf⟩
      · simp [QueryValue.NullableEmbedAssignments, hS]
      · have hfilter : s.Fields.filter Spec.isNullableEmbed = [] := by
          rw [List.filter_eq_nil_iff]
          intro f hmem
          simp [hf f hmem]
        unfold QueryValue.NullableEmbedAssignments
        rw [hS]
        simp only []
        rw [assignmentsLoop_ok v s.Fields [], hfilter]
        · rfl
        · intro f hmem
          simp [Spec.lacksPrimaryKey, hf f hmem]
    · unfold QueryValue.ScanWithOptions
      rw [scan_out_inert p v h]
  · intro h
    cases hS : v.Struct with
    | none => simp [QueryValue.HasNullableEmbed, hS] at h
    | some s =>
      simp only [QueryValue.HasNullableEmbed, hS, Bool.not_true, Option.isNone_some,
        Bool.or_self, Bool.false_eq_true, if_false, List.any_eq_true] at h
      obtain ⟨f, hmem, hf⟩ := h
      have hN : Spec.isNullableEmbed f = true := hf
      have hE : f.EmbedFields ≠ [] := by
        simp only [Spec.isNullableEmbed, Bool.and_eq_true, decide_eq_true_eq] at hN
        exact List.length_pos.mp hN.1
      rw [tempVars_eq v s hS]
      intro hnil
      have htemps : Spec.temporaries v s = [] := by
        simpa using hnil
      unfold Spec.temporaries at htemps
      rw [List.flatMap_eq_nil_iff] at htemps
      have := htemps f (List.mem_filter.mpr ⟨hmem, hN⟩)
      simp at this
      exact hE this

theorem nullable_embed_inert_witness :
    Sample.flatArg.NullableEmbedTempVars = [] ∧
    Sample.flatArg.NullableEmbedAssignments = .ok [] ∧
    Sample.flatArg.ScanWithOptions Sample.pkg true =
      Sample.flatArg.ScanWithOptions Sample.pkg false ∧
    Sample.joinRow.NullableEmbedTempVars ≠ [] :=
  ⟨((nullable_embed_inert Sample.pkg Sample.flatArg).2.2.1 rfl).1,
   ((nullable_embed_inert Sample.pkg Sample.flatArg).2.2.1 rfl).2.1,
   ((nullable_embed_inert Sample.pkg Sample.flatArg).2.2.1 rfl).2.2,
   (nullable_embed_inert Sample.pkg Sample.joinRow).2.2.2 rfl⟩

/-! ## Bound parameters and declared arguments -/

/-- C20, failing input. A scalar wrapper with a non-empty type whose `Column`
is nil: `Pairs` declares the argument `id`, `Params` panics on the nil
pointer and has no entry. -/
theorem params_pairs_scalar_without_column :
    Sample.scalarNoColumn.Struct = none ∧
    Sample.scalarNoColumn.Typ = "int64" ∧
    Sample.scalarNoColumn.Pairs Sample.pkg = .ok [⟨"id", "int64"⟩] ∧
    Sample.scalarNoColumn.Params_out Sample.pkg = .error nilDeref ∧
    Sample.scalarNoColumn.Params Sample.pkg = .error nilDeref := by
  refine ⟨rfl, rfl, rfl, rfl, rfl⟩

theorem paramEntry_forms (p : Pkg) (v : QueryValue) (spread : Bool) (typ e : String) :
    Spec.paramEntry p v spread typ e = e ∨
    Spec.paramEntry p v spread typ e = "pq.Array(" ++ e ++ ")" := by
  unfold Spec.paramEntry
  split
  · exact Or.inr rfl
  · exact Or.inl rfl

/-- The bound parameters of the wrappers on which `Params` does not panic
reference the declared arguments: for a record-valued wrapper with
`Emit == false` there are as many entries as arguments and the i-th entry is
the name of the i-th argument or its `pq.Array` wrapping; for a scalar wrapper
with a type and with column metadata the single entry is the name of the
single argument or its wrapping. -/
theorem params_reference_pairs (p : Pkg) (v : QueryValue) :
    (∀ s, v.Struct = some s → v.Emit = false →
      ∃ args entries, v.Pairs p = .ok args ∧ v.Params_out p = .ok entries ∧
        entries.length = args.length ∧
        ∀ i (h1 : i < entries.length) (h2 : i < args.length),
          entries[i] = args[i].Name ∨ entries[i] = "pq.Array(" ++ args[i].Name ++ ")") ∧
    (∀ c, v.Struct = none → v.Typ ≠ "" → v.Column = some c →
      ∃ arg entry, v.Pairs p = .ok [arg] ∧ v.Params_out p = .ok [entry] ∧
        (entry = arg.Name ∨ entry = "pq.Array(" ++ arg.Name ++ ")")) := by
  refine ⟨?_, ?_⟩
  · intro s hS hE
    refine ⟨s.Fields.map (fun f => ⟨p.escape (p.toLowerCase f.Name), f.Type_⟩),
      s.Fields.map (Spec.fieldParamEntry p v), ?_, params_out_record p v s hS, by simp, ?_⟩
    · simp [QueryValue.Pairs, QueryValue.isEmpty, QueryValue.EmitStruct, hS, hE,
        foldl_append_singleton]
    · intro i h1 h2
      simp only [List.getElem_map]
      have hvar : ∀ f, v.VariableForField p f = p.toLowerCase f.Name := by
        intro f
        simp [QueryValue.VariableForField, QueryValue.IsStruct, QueryValue.EmitStruct, hS, hE]
      unfold Spec.fieldParamEntry
      rw [hvar]
      exact paramEntry_forms p v _ _ _
  · intro c hS hT hC
    have hty : v.Type_ = .ok v.Typ := by
      simp [QueryValue.Type_, hT]
    have hptr : v.IsPointer = false := by
      simp [QueryValue.IsPointer, hS]
    refine ⟨⟨p.escape v.Name, v.Typ⟩, _, ?_, params_out_scalar p v c hS hC,
      paramEntry_forms p v _ _ _⟩
    simp [QueryValue.Pairs, QueryValue.isEmpty, hT, hS, QueryValue.DefineType, hty, hptr]

theorem params_reference_pairs_witness :
    ∃ args entries, Sample.flatArg.Pairs Sample.pkg = .ok args ∧
      Sample.flatArg.Params_out Sample.pkg = .ok entries ∧ entries.length = args.length :=
  have h := (params_reference_pairs Sample.pkg Sample.flatArg).1 _ rfl rfl
  h.elim fun args h2 => h2.elim fun entries h3 => ⟨args, entries, h3.1, h3.2.1, h3.2.2.1⟩

end Golang
